import Mathlib

/-!
# objcsv: rows of tokens to and from struct values

A shallow embedding of `csv.go` (package `objcsv`): `ReadCSV`, `recordToValue`,
`WriteCSV`, `writeHeader`, `writeRow`, `reflectSlice` and `csvError`.

Modelling boundary.

* A struct type is the list of its fields, all of them exported, since `reflect`
  refuses to set or read any other field. A field has a name, a `reflect.Kind` and,
  when its type is a defined type rather than the predeclared type of its kind, the
  name of that type and whether it has a method that `fmt` prints through. A struct
  value is its type with one value per field.
* Tokens are Lean strings. The routines of `strconv` and `fmt` that the program calls on
  integers and booleans are written out here; those on `float64` (`strconv.ParseFloat`,
  the verbs `%.2f` and `%v`), the verb `%v` on kinds the program has no rule for and
  the `Format`, `Error` and `String` methods of defined types are fields of `Host`.
* `int` is 64 bits wide (the `amd64` and `arm64` ports).
* `encoding/csv` is outside: a reader is the list of results that successive calls of
  `Read` give before `io.EOF`, a writer records the rows handed to `Write` and may
  answer a call with an error. Of the reader the field-count rule of its default
  setting is written out (`NewReader`), for a source given as the records of its text;
  of the text between a writer and a reader, what becomes of the rows
  (`writtenRecords`).
-/

namespace Objcsv

/-! ## reflect.Kind and field values -/

/-- The kinds of `reflect.Kind`, in the order of the Go declaration. -/
inductive Kind
  | Invalid | Bool | Int | Int8 | Int16 | Int32 | Int64
  | Uint | Uint8 | Uint16 | Uint32 | Uint64 | Uintptr
  | Float32 | Float64 | Complex64 | Complex128
  | Array | Chan | Func | Interface | Map | Ptr | Slice | String | Struct | UnsafePointer
  deriving DecidableEq, Repr

/-- The signed integer kinds, the ones of the second `case` of the decoder's switch. -/
def isIntKind : Kind → Bool
  | .Int | .Int8 | .Int16 | .Int32 | .Int64 => true
  | _ => false

/-- Width in bits of a signed integer kind (`int` taken as 64 bits); 0 for other kinds. -/
def intBits : Kind → Nat
  | .Int => 64
  | .Int8 => 8
  | .Int16 => 16
  | .Int32 => 32
  | .Int64 => 64
  | _ => 0

/-- A `float64`, kept as its 64-bit pattern. -/
structure Float64 where
  bitPattern : Nat
  deriving DecidableEq, Repr

/-- A field value. `other k p` is a value of a kind the program has no rule for, with
`p` standing for its contents (`0` for the zero value). -/
inductive Value
  | bool (b : Bool)
  | int (k : Kind) (n : Int)
  | float64 (x : Float64)
  | string (s : String)
  | other (k : Kind) (p : Nat)
  deriving DecidableEq, Repr

/-- The kind of a field value. -/
def Value.kind : Value → Kind
  | .bool _ => .Bool
  | .int k _ => k
  | .float64 _ => .Float64
  | .string _ => .String
  | .other k _ => k

/-- The zero value of a kind, what `reflect.New` leaves in a field of that kind. -/
def zeroValue : Kind → Value
  | .Bool => .bool false
  | .Int => .int .Int 0
  | .Int8 => .int .Int8 0
  | .Int16 => .int .Int16 0
  | .Int32 => .int .Int32 0
  | .Int64 => .int .Int64 0
  | .Float64 => .float64 ⟨0⟩
  | .String => .string ""
  | k => .other k 0

/-- A defined type (`type Level int`), as far as `fmt` looks at it: its name, and
whether it has a `Format`, `Error` or `String` method, through which `%v` prints its
values. -/
structure DefinedType where
  TypeName : String
  printer : Bool
  deriving DecidableEq, Repr

/-- A `reflect.StructField`, as far as the program and `fmt` look at it: `Name`,
`Type.Kind()`, and the type itself: `none` for the predeclared type of the kind (`int`,
`string`, `float64`, `bool`, ...) or a type literal, else the defined type. -/
structure Field where
  Name : String
  Kind : Kind
  Defined : Option DefinedType
  deriving DecidableEq, Repr

/-- The type of the field has a method that `%v` prints through. -/
def hasPrinter (f : Field) : Bool :=
  match f.Defined with
  | some d => d.printer
  | none => false

/-- A struct type: its fields in declaration order. -/
abbrev StructType := List Field

/-- The field values of one struct value, in declaration order. -/
abbrev Record := List Value

/-- A row of tokens, as `encoding/csv` gives and takes it. -/
abbrev Row := List String

/-- A struct value as `reflect.ValueOf` sees it: its type and its field values. -/
structure Struct where
  typ : StructType
  fields : Record
  deriving DecidableEq, Repr

/-- Go: `v.NumField()`. -/
def Struct.NumField (v : Struct) : Nat := v.typ.length

/-- Go: `v.Field(i)`, for `i < v.NumField()`. -/
def Struct.Field (v : Struct) (i : Nat) : Value :=
  v.fields.getD i (zeroValue ((v.typ.getD i ⟨"", .Invalid, none⟩).Kind))

/-- Go: `reflect.New(t)`, the field values of the fresh struct: every field at zero. -/
def newRecord (t : StructType) : Record := t.map (fun f => zeroValue f.Kind)

/-- The value is a Go value of kind `k`: built by the constructor for that kind, an
integer within the width of its kind. -/
def Value.FitsKind (k : Kind) : Value → Prop
  | .bool _ => k = .Bool
  | .int k1 n =>
    k1 = k ∧ isIntKind k = true ∧
      -(2 : Int) ^ (intBits k - 1) ≤ n ∧ n < (2 : Int) ^ (intBits k - 1)
  | .float64 _ => k = .Float64
  | .string _ => k = .String
  | .other k1 _ =>
    k1 = k ∧ isIntKind k = false ∧ k ≠ .Bool ∧ k ≠ .Float64 ∧ k ≠ .String

/-- The record is a value of the struct type `t`: one value per field, each of the
field's kind. -/
def Conforms (t : StructType) (r : Record) : Prop :=
  List.Forall₂ (fun f v => Value.FitsKind f.Kind v) t r

/-! ## What `reflect.ValueOf` can make of an `interface{}` argument -/

/-- The argument `ptrToSlice` of `ReadCSV` or `slice` of `WriteCSV`. Slices here are
slices of structs. -/
inductive GoValue
  /-- The nil interface; `reflect.ValueOf` gives the zero `Value`. -/
  | untypedNil
  /-- A nil pointer, slice, map, channel or function, of kind `k`. -/
  | nilOf (k : Kind)
  /-- A non-nil slice of structs of type `t`. -/
  | slice (t : StructType) (items : List Record)
  /-- A non-nil pointer to a slice variable holding `items`. -/
  | ptrToSlice (t : StructType) (items : List Record)
  /-- A non-nil pointer to a value of kind `k`, not a slice. -/
  | ptrTo (k : Kind)
  /-- Any other non-nil value, of kind `k` (neither a pointer nor a slice). -/
  | val (k : Kind)
  deriving DecidableEq, Repr

/-- Go: `v.Kind()`. -/
def goKind : GoValue → Kind
  | .untypedNil => .Invalid
  | .nilOf k => k
  | .slice _ _ => .Slice
  | .ptrToSlice _ _ => .Ptr
  | .ptrTo _ => .Ptr
  | .val k => k

/-- Go: `v.IsNil()`; `none` when `reflect` panics, which it does for every kind other
than chan, func, interface, map, pointer, slice and unsafe pointer. -/
def goIsNil (v : GoValue) : Option Bool :=
  match goKind v with
  | .Chan | .Func | .Interface | .Map | .Ptr | .Slice | .UnsafePointer =>
    match v with
    | .nilOf _ => some true
    | _ => some false
  | _ => none

/-- Go: `v.Elem().Kind()` for a pointer `v`. -/
def goElemKind : GoValue → Kind
  | .ptrToSlice _ _ => .Slice
  | .ptrTo k => k
  | _ => .Invalid

/-! ## Errors -/

/-- The two sentinel errors of `strconv`. -/
inductive StrconvErr
  | ErrSyntax | ErrRange
  deriving DecidableEq, Repr

/-- Go: `strconv.NumError`. -/
structure NumError where
  Func : String
  Num : String
  Err : StrconvErr
  deriving DecidableEq, Repr

/-- An operand of a format string. -/
inductive Arg
  | str (s : String)
  | kind (k : Kind)
  | numError (e : NumError)
  | goValue (v : GoValue)
  deriving DecidableEq, Repr

/-- A Go `error`: one the program builds with `fmt.Errorf` (format string and operands),
or one that `encoding/csv` or the stream under it returned (its message). Errors of the
two origins are never the same value. -/
inductive GoError
  | errorf (format : String) (args : List Arg)
  | external (msg : String)
  deriving DecidableEq, Repr

/-- Go: `csvError`. -/
def csvError (msg : String) (args : List Arg) : GoError :=
  .errorf ("CSV: " ++ msg) args

/-! ## strconv and fmt, as far as the program calls them -/

/-- Two's-complement conversion to a signed integer of `bits` bits, as Go's `int64(x)`
or the store of `reflect.Value.SetInt` does it. -/
def wrapInt (bits : Nat) (n : Int) : Int :=
  (n + 2 ^ (bits - 1)) % 2 ^ bits - 2 ^ (bits - 1)

/-- Go: `lower` of `strconv`, `c | ('x' - 'X')`. -/
def lower (c : Char) : Nat := c.toNat ||| 32

/-- The digit a byte stands for in `ParseUint`: `0..9` for `'0'..'9'`, `10..35` for a
letter, `none` for any other byte (the `default` of the switch). -/
def digitVal (c : Char) : Option Nat :=
  if 48 ≤ c.toNat ∧ c.toNat ≤ 57 then some (c.toNat - 48)
  else if 97 ≤ lower c ∧ lower c ≤ 122 then some (lower c - 97 + 10)
  else none

/-- The loop of `strconv.ParseUint` over the bytes of the numeral, `n` the number read
so far (a `uint64`); `none` as error means the loop ran to the end. -/
def parseUintLoop (base maxVal cutoff : Nat) : List Char → Nat → Nat × Option StrconvErr
  | [], n => (n, none)
  | c :: cs, n =>
    match digitVal c with
    | none => (0, some .ErrSyntax)
    | some d =>
      if d ≥ base then (0, some .ErrSyntax)
      else if n ≥ cutoff then (maxVal, some .ErrRange)
      else
        let n0 := (n * base) % 2 ^ 64
        let n1 := (n0 + d) % 2 ^ 64
        if n1 < n0 ∨ n1 > maxVal then (maxVal, some .ErrRange)
        else parseUintLoop base maxVal cutoff cs n1

/-- Go: `strconv.ParseUint(s, base, bitSize)` for `2 ≤ base ≤ 36` and
`1 ≤ bitSize ≤ 64` (the program calls it, through `ParseInt`, with 10 and 64). -/
def ParseUint (s : List Char) (base bitSize : Nat) : Nat × Option NumError :=
  if s = [] then (0, some ⟨"ParseUint", String.mk s, .ErrSyntax⟩)
  else
    let cutoff := (2 ^ 64 - 1) / base + 1
    let maxVal := 2 ^ bitSize - 1
    match parseUintLoop base maxVal cutoff s 0 with
    | (n, none) => (n, none)
    | (n, some e) => (n, some ⟨"ParseUint", String.mk s, e⟩)

/-- The step "pick off leading sign" of `strconv.ParseInt`: whether the numeral is
negative, and what follows the sign. -/
def splitSign : List Char → Bool × List Char
  | '+' :: r => (false, r)
  | '-' :: r => (true, r)
  | r => (false, r)

/-- Go: `strconv.ParseInt(s, base, bitSize)`, same bounds on `base` and `bitSize`. -/
def ParseInt (s : String) (base bitSize : Nat) : Int × Option NumError :=
  if s = "" then (0, some ⟨"ParseInt", s, .ErrSyntax⟩)
  else
    let s0 := s
    let neg := (splitSign s.data).1
    match ParseUint (splitSign s.data).2 base bitSize with
    | (_, some ⟨_, _, .ErrSyntax⟩) => (0, some ⟨"ParseInt", s0, .ErrSyntax⟩)
    | (un, _) =>
      let cutoff := 2 ^ (bitSize - 1)
      if !neg ∧ un ≥ cutoff then
        (wrapInt 64 (cutoff - 1 : Nat), some ⟨"ParseInt", s0, .ErrRange⟩)
      else if neg ∧ un > cutoff then
        (wrapInt 64 (-wrapInt 64 cutoff), some ⟨"ParseInt", s0, .ErrRange⟩)
      else
        let n := wrapInt 64 un
        (if neg then wrapInt 64 (-n) else n, none)

/-- Go: `strconv.ParseBool`. -/
def ParseBool (str : String) : Bool × Option NumError :=
  if str = "1" ∨ str = "t" ∨ str = "T" ∨ str = "true" ∨ str = "TRUE" ∨ str = "True" then
    (true, none)
  else if str = "0" ∨ str = "f" ∨ str = "F" ∨ str = "false" ∨ str = "FALSE" ∨ str = "False" then
    (false, none)
  else (false, some ⟨"ParseBool", str, .ErrSyntax⟩)

/-- The digit loop of `fmt`'s `fmtInteger` in base 10: the digits of `u` are put in
front of `buf`, the last digit first. The first argument bounds the number of turns. -/
def fmtUnsigned : Nat → Nat → List Char → List Char
  | 0, _, buf => buf
  | fuel + 1, u, buf =>
    if u ≥ 10 then fmtUnsigned fuel (u / 10) (Char.ofNat (48 + u % 10) :: buf)
    else Char.ofNat (48 + u) :: buf

/-- Go: `fmt.Sprintf("%d", n)` for a signed integer `n`; the verb `%v` gives the same. -/
def fmtInteger (n : Int) : String :=
  String.mk ((if n < 0 then ['-'] else []) ++ fmtUnsigned (n.natAbs + 1) n.natAbs [])

/-- The routines of the Go library on which the program depends and which are not
written out here. -/
structure Host where
  /-- Go: `strconv.ParseFloat(s, 64)`. -/
  ParseFloat : String → Float64 × Option NumError
  /-- Go: `fmt.Sprintf("%.2f", x)`. -/
  sprintfF2 : Float64 → String
  /-- Go: `fmt.Sprintf("%v", x)` for a value of a kind without a rule, given as its kind
  and contents. -/
  sprintfV : Kind → Nat → String
  /-- Go: `fmt.Sprintf("%v", x)` for a `float64` (the format `%g`). -/
  sprintfG : Float64 → String
  /-- What the `Format`, `Error` or `String` method of the defined type of that name
  makes `%v` print for a value. -/
  sprintfMethod : String → Value → String


/-! ## The program -/

/-- What a call leaves behind: it returned (an error or `nil`, and the state of what it
writes to), or it panicked inside `reflect`. -/
inductive Outcome (σ : Type)
  | returned (err : Option GoError) (after : σ)
  | panicked
  deriving DecidableEq, Repr

/-- The closure `typeError` of `recordToValue`, for the field type `ft` and the field
name `name`. -/
def typeError (ft : Kind) (name : String) (msg : String) (e : NumError) : GoError :=
  csvError "%v: type %v, field %v: %v" [.str msg, .kind ft, .str name, .numError e]

/-- The `switch ft` of `recordToValue` on the non-empty token `s` of field `f`: the
value the field is set to, or the error returned. -/
def setField (host : Host) (f : Field) (s : String) : Except GoError Value :=
  match f.Kind with
  | .String => .ok (.string s)
  | .Int | .Int8 | .Int16 | .Int32 | .Int64 =>
    match ParseInt s 10 64 with
    | (_, some err) => .error (typeError f.Kind f.Name "int" err)
    | (theInt, none) => .ok (.int f.Kind (wrapInt (intBits f.Kind) theInt))
  | .Float64 =>
    match host.ParseFloat s with
    | (_, some err) => .error (typeError f.Kind f.Name "float64" err)
    | (theFloat, none) => .ok (.float64 theFloat)
  | .Bool =>
    match ParseBool s with
    | (_, some err) => .error (typeError f.Kind f.Name "bool" err)
    | (theBool, none) => .ok (.bool theBool)
  | ft => .error (csvError "recordToValue: unsupported type %v in field %v" [.kind ft, .str f.Name])

/-- The loop `for i, s := range ss` of `recordToValue`, from index `i` on, `v` the
fields of the struct under construction. -/
def decodeLoop (host : Host) (t : StructType) : Nat → List String → Record → Record × Option GoError
  | _, [], v => (v, none)
  | i, s :: ss, v =>
    if s = "" then decodeLoop host t (i + 1) ss v
    else
      match setField host (t.getD i ⟨"", .Invalid, none⟩) s with
      | .error e => (v, some e)
      | .ok x => decodeLoop host t (i + 1) ss (v.set i x)

/-- Go: `recordToValue`. The first component is the struct behind the returned pointer,
the second the error. -/
def recordToValue (host : Host) (ss : Row) (t : StructType) : Record × Option GoError :=
  let v := newRecord t
  if ss.length ≠ t.length then
    (v, some (csvError "recordToValue: can't decode CSV record to struct (field mismatch)" []))
  else decodeLoop host t 0 ss v

/-- A `csv.Reader` over the source: the results of the calls of `Read` that come before
`io.EOF`, each a record or an error of the tokenizer (given by its message). -/
abbrev Reader := List (Except String Row)

/-- The results of `Read` for the records still in the source, for a `csv.Reader` whose
`FieldsPerRecord` is `fieldsPerRecord`: when it is positive a record of another length
comes with the error `csv.ErrFieldCount` (given by its text), when it is 0 the record
sets it. -/
def readRecords : Nat → List Row → Reader
  | _, [] => []
  | fieldsPerRecord, record :: rest =>
    if fieldsPerRecord > 0 then
      if record.length ≠ fieldsPerRecord then
        .error "wrong number of fields" :: readRecords fieldsPerRecord rest
      else .ok record :: readRecords fieldsPerRecord rest
    else .ok record :: readRecords record.length rest

/-- Go: `csv.NewReader(r)` as `ReadCSV` makes it, `FieldsPerRecord` left at 0, over a
source `r` whose text holds the records `rows`. -/
def NewReader (rows : List Row) : Reader := readRecords 0 rows

/-- The `for` loop of `ReadCSV`: what is left of the reader, `didHeader`, and the slice
behind the pointer. Gives the returned error and the slice afterwards. -/
def readLoop (host : Host) (t : StructType) : Reader → Bool → List Record → Option GoError × List Record
  | [], _, dst => (none, dst)
  | .error err :: _, _, dst => (some (.external err), dst)
  | .ok record :: cr, didHeader, dst =>
    if !didHeader then readLoop host t cr true dst
    else
      match recordToValue host record t with
      | (_, some err) => (some err, dst)
      | (rv, none) => readLoop host t cr true (dst ++ [rv])

/-- Go: `ReadCSV`. The state afterwards is the argument `ptrToSlice` with the slice as
the call left it. -/
def ReadCSV (host : Host) (cr : Reader) (ptrToSlice : GoValue) : Outcome GoValue :=
  let pv := ptrToSlice
  match goIsNil pv with
  | none => .panicked
  | some true =>
    .returned (some (csvError "expected %v to have a non-nil value" [.goValue ptrToSlice])) pv
  | some false =>
    if goKind pv ≠ .Ptr ∨ goElemKind pv ≠ .Slice then
      .returned (some (csvError "expected a pointer to a slice, got %v instead" [.kind (goKind pv)])) pv
    else
      match pv with
      | .ptrToSlice t items =>
        match readLoop host t cr false items with
        | (err, items1) => .returned err (.ptrToSlice t items1)
      | _ => .panicked

/-- A `csv.Writer` over the sink: the rows handed to `Write` so far, the answers the
coming calls of `Write` get (`none` for `nil`, `some msg` for an error of the sink; past
the end of the list every call succeeds), and whether `Flush` was the last call. -/
structure Writer where
  rows : List Row
  faults : List (Option String)
  flushed : Bool
  deriving DecidableEq, Repr

/-- Go: `w.Write(record)` of `csv.Writer`. -/
def Writer.Write (w : Writer) (record : Row) : Writer × Option GoError :=
  match w.faults with
  | some err :: rest => ({ w with faults := rest }, some (.external err))
  | none :: rest => ({ rows := w.rows ++ [record], faults := rest, flushed := false }, none)
  | [] => ({ rows := w.rows ++ [record], faults := [], flushed := false }, none)

/-- Go: `w.Flush()` of `csv.Writer`. -/
def Writer.Flush (w : Writer) : Writer := { w with flushed := true }

/-- Go: `reflectSlice`; `none` when `reflect` panics. -/
def reflectSlice (i : GoValue) : Option (GoValue × Option GoError) :=
  let v := i
  match goIsNil v with
  | none => none
  | some true => some (v, some (csvError "expected %v to have a non-nil value" [.goValue i]))
  | some false =>
    if goKind v ≠ .Slice then
      some (v, some (csvError "expected a slice, got %v instead" [.kind (goKind v)]))
    else some (v, none)

/-- The row `header` that `writeHeader` fills: `header[i] = v.Type().Field(i).Name`. -/
def headerRow (v : Struct) : Row :=
  (List.range v.NumField).map (fun i => (v.typ.getD i ⟨"", .Invalid, none⟩).Name)

/-- Go: `writeHeader`. -/
def writeHeader (w : Writer) (d : Struct) : Writer × Option GoError :=
  w.Write (headerRow d)

/-- Go: `fmt.Sprintf("%v", x)` for the value `x` of the field `f`: through the method
of the type when it has one, else by kind. -/
def sprintV (host : Host) (f : Field) (x : Value) : String :=
  match f.Defined with
  | some ⟨name, true⟩ => host.sprintfMethod name x
  | _ =>
    match x with
    | .bool b => if b then "true" else "false"
    | .int _ n => fmtInteger n
    | .float64 y => host.sprintfG y
    | .string s => s
    | .other k p => host.sprintfV k p

/-- The type switch of `writeRow` on `v.Field(i).Interface()`, the value `x` of the field
`f`, whose dynamic type is the type of the field: the cases `int`, `float64` and
`string` are for these three predeclared types only, every other type takes
`default`. -/
def formatField (host : Host) (f : Field) (x : Value) : String :=
  match f.Defined, x with
  | none, .int .Int n => fmtInteger n
  | none, .float64 y => host.sprintfF2 y
  | none, .string s => s
  | _, _ => sprintV host f x

/-- The row `row` that `writeRow` fills, one token per field. -/
def buildRow (host : Host) (v : Struct) : Row :=
  (List.range v.NumField).map
    (fun i => formatField host (v.typ.getD i ⟨"", .Invalid, none⟩) (v.Field i))

/-- Go: `writeRow`. -/
def writeRow (host : Host) (w : Writer) (d : Struct) : Writer × Option GoError :=
  w.Write (buildRow host d)

/-- The loop `for i := 0; i < v.Len(); i++` of `WriteCSV` over the elements still to
write. -/
def writeLoop (host : Host) (t : StructType) : List Record → Writer → Writer × Option GoError
  | [], cw => (cw, none)
  | e :: rest, cw =>
    match writeRow host cw ⟨t, e⟩ with
    | (cw1, some err) => (cw1, some err)
    | (cw1, none) => writeLoop host t rest cw1

/-- Go: `WriteCSV`; `cw` is the `csv.Writer` made over the sink `w`. The state
afterwards is that writer. -/
def WriteCSV (host : Host) (cw : Writer) (slice : GoValue) : Outcome Writer :=
  match reflectSlice slice with
  | none => .panicked
  | some (_, some err) => .returned (some err) cw
  | some (v, none) =>
    match v with
    | .slice t items =>
      if items.length = 0 then .returned (some (csvError "data is empty" [])) cw
      else
        match writeHeader cw ⟨t, items.getD 0 []⟩ with
        | (cw1, some err) => .returned (some err) cw1
        | (cw1, none) =>
          match writeLoop host t items cw1 with
          | (cw2, some err) => .returned (some err) cw2
          | (cw2, none) => .returned none cw2.Flush
    | _ => .panicked

/-- A host for running the model on structs without `float64` fields and without fields
of other kinds: its float parser rejects every token. Its one defined type with a
method is `Level`, over `int`, with
`func (l Level) String() string { return fmt.Sprintf("level-%d", int(l)) }`. -/
def plainHost : Host where
  ParseFloat := fun s => (⟨0⟩, some ⟨"ParseFloat", s, .ErrSyntax⟩)
  sprintfF2 := fun _ => "NaN"
  sprintfV := fun _ _ => "?"
  sprintfG := fun _ => "NaN"
  sprintfMethod := fun _ x =>
    match x with
    | .int _ n => "level-" ++ fmtInteger n
    | _ => "?"

/-! ## The text between `csv.Writer` and `csv.Reader` -/

/-- A character sequence as `csv.Reader` reads it back from a quoted field: a carriage
return that stands before a newline is dropped. -/
def dropCR : List Char → List Char
  | [] => []
  | '\r' :: '\n' :: rest => '\n' :: dropCR rest
  | c :: rest => c :: dropCR rest

/-- The row is written by `csv.Writer` as an empty line: it has no field, or one field
that is the empty string. -/
def isBlankRow (r : Row) : Bool := decide (r = []) || decide (r = [""])

/-- The records `csv.Reader` finds in the text that `csv.Writer` wrote for `rows`: the
reader skips the empty lines, and in a field it drops each carriage return before a
newline; every other field comes back as it was handed to `Write`. -/
def writtenRecords (rows : List Row) : List Row :=
  (rows.filter (fun r => !isBlankRow r)).map
    (fun r => r.map (fun s => String.mk (dropCR s.data)))


/-! ## Auxiliary definitions for the proofs -/

/-- The byte is one of `'0'..'9'`. -/
def isDecimalDigit (c : Char) : Bool := decide (48 ≤ c.toNat ∧ c.toNat ≤ 57)

/-- The number that a run of decimal digits denotes after the digits that gave `n`. -/
def digitsValueFrom (n : Nat) (ds : List Char) : Nat :=
  ds.foldl (fun a c => 10 * a + (c.toNat - 48)) n

/-- The number that a run of decimal digits denotes. -/
def digitsValue (ds : List Char) : Nat := digitsValueFrom 0 ds

/-- The characters of a token after its sign, if it has one. -/
def dropSign : List Char → List Char
  | '+' :: r => r
  | '-' :: r => r
  | r => r

/-- Spec: "a base-10 signed integer literal (an optional sign followed by one or more
decimal digits)". -/
def isIntLiteral (s : String) : Bool :=
  decide (dropSign s.data ≠ []) && (dropSign s.data).all isDecimalDigit

/-- Spec: "the integer that the base-10 token denotes", for a token that is an
integer literal. -/
def literalValue (s : String) : Int :=
  match s.data with
  | '-' :: r => -(digitsValue r : Int)
  | '+' :: r => (digitsValue r : Int)
  | r => (digitsValue r : Int)


/-- Spec: "decimal string, no leading zeros, sign only if negative": `tok` is the
canonical decimal numeral of `n`, that is a `'-'` exactly when `n < 0`, then a non-empty
run of decimal digits that denotes the magnitude of `n` and starts with `'0'` only when
it is `"0"`. -/
def IsCanonicalDecimal (tok : String) (n : Int) : Prop :=
  ∃ ds : List Char, tok.data = (if n < 0 then ['-'] else []) ++ ds ∧ ds ≠ [] ∧
    ds.all isDecimalDigit = true ∧ (ds.head? = some '0' → ds = ['0']) ∧
    digitsValue ds = n.natAbs


/-- Spec: **EmptyInput**, "write requested on an empty collection": the error of
`WriteCSV` for a slice without elements and the one of `reflectSlice` for a nil value. -/
def IsEmptyInput (e : GoError) : Prop :=
  e = csvError "data is empty" [] ∨
    ∃ v, e = csvError "expected %v to have a non-nil value" [.goValue v]


/-- What the loop of `recordToValue` does with the token `s` of field `f`: an empty
token leaves the field at zero, any other goes through the switch. -/
def decodeToken (host : Host) (f : Field) (s : String) : Except GoError Value :=
  if s = "" then .ok (zeroValue f.Kind) else setField host f s

/-- Spec: the value a non-empty token "parses to under the field's kind": the token
itself for a string, the integer that the base-10 token denotes for an integer kind, the
result of the float and boolean parsers for those kinds. -/
def parsedValue (host : Host) (k : Kind) (s : String) : Value :=
  match k with
  | .String => .string s
  | .Int | .Int8 | .Int16 | .Int32 | .Int64 => .int k (literalValue s)
  | .Float64 => .float64 (host.ParseFloat s).1
  | .Bool => .bool (ParseBool s).1
  | k => zeroValue k

/-- Spec: the supported kinds, "string; integer of any width int, int8, int16, int32,
int64; floating-point; boolean". -/
def isSupportedKind (k : Kind) : Bool :=
  k = .String || isIntKind k || k = .Float64 || k = .Bool


/-- Spec: for a non-empty token, "the field's kind has no decode rule or the token does
not parse under the field's kind". -/
def tokenRejected (host : Host) (k : Kind) (s : String) : Bool :=
  match k with
  | .String => false
  | .Int | .Int8 | .Int16 | .Int32 | .Int64 => (ParseInt s 10 64).2.isSome
  | .Float64 => (host.ParseFloat s).2.isSome
  | .Bool => (ParseBool s).2.isSome
  | _ => true

/-- The tokens that a boolean field takes as `true`. -/
def trueTokens : List String := ["1", "t", "T", "true", "TRUE", "True"]

/-- The tokens that a boolean field takes as `false`. -/
def falseTokens : List String := ["0", "f", "F", "false", "FALSE", "False"]

/-- Spec: **InvalidDestination**, "decode target is not a valid mutable collection
reference": the two errors `ReadCSV` returns before it reads. -/
def IsInvalidDestination (e : GoError) : Prop :=
  (∃ v, e = csvError "expected %v to have a non-nil value" [.goValue v]) ∨
    ∃ k, e = csvError "expected a pointer to a slice, got %v instead" [.kind k]


/-- The value, when it is a string, holds no carriage return before a newline, so that
its token comes back from the text as it was written. -/
def noCRLF : Value → Bool
  | .string s => decide (dropCR s.data = s.data)
  | _ => true


/-- The decoder by recursion on the fields and the tokens side by side; `recordToValue`
computes the same on a row of matching length (`recordToValue_eq_decodeZip`). -/
def decodeZip (host : Host) : StructType → List String → Record × Option GoError
  | f :: t, s :: ss =>
    if s = "" then (zeroValue f.Kind :: (decodeZip host t ss).1, (decodeZip host t ss).2)
    else
      match setField host f s with
      | .error e => (zeroValue f.Kind :: newRecord t, some e)
      | .ok x => (x :: (decodeZip host t ss).1, (decodeZip host t ss).2)
  | _, _ => ([], none)


end Objcsv

namespace Objcsv

/-! ## Lemmas on the loops -/

theorem range_map_getD {α β : Type} (l : List α) (d : α) (g : α → β) :
    (List.range l.length).map (fun i => g (l.getD i d)) = l.map g := by
  apply List.ext_getElem
  · simp
  · intro i h1 h2
    simp at h1
    simp [List.getD_eq_getElem?_getD, List.getElem?_eq_getElem h1]

theorem headerRow_eq (v : Struct) : headerRow v = v.typ.map (fun f => f.Name) := by
  unfold headerRow Struct.NumField
  exact range_map_getD v.typ _ (fun f => f.Name)

theorem buildRow_getElem? (host : Host) (v : Struct) (i : Nat) (f : Field) (x : Value)
    (hf : v.typ[i]? = some f) (hx : v.fields[i]? = some x) :
    (buildRow host v)[i]? = some (formatField host f x) := by
  have hi : i < v.typ.length := (List.getElem?_eq_some.mp hf).1
  simp [buildRow, Struct.NumField, Struct.Field, List.getD_eq_getElem?_getD, hf, hx,
    List.getElem?_range hi]

theorem buildRow_eq (host : Host) (t : StructType) (r : Record) (h : r.length = t.length) :
    buildRow host ⟨t, r⟩ = List.zipWith (formatField host) t r := by
  apply List.ext_getElem
  · simp [buildRow, Struct.NumField, h]
  · intro i h1 h2
    have hi : i < t.length := by simpa [buildRow, Struct.NumField] using h1
    have hr : i < r.length := by omega
    have := buildRow_getElem? host ⟨t, r⟩ i t[i] r[i] (List.getElem?_eq_getElem hi)
      (List.getElem?_eq_getElem hr)
    rw [List.getElem?_eq_getElem h1] at this
    simp only [Option.some.injEq] at this
    simp [this]

theorem decodeLoop_eq_decodeZip (host : Host) (t : StructType) :
    ∀ (ss : List String) (pre : StructType) (vpre : Record),
      ss.length = t.length → vpre.length = pre.length →
      decodeLoop host (pre ++ t) pre.length ss (vpre ++ newRecord t)
        = (vpre ++ (decodeZip host t ss).1, (decodeZip host t ss).2) := by
  induction t with
  | nil =>
    intro ss pre vpre hs _
    have : ss = [] := List.length_eq_zero.mp hs
    subst this
    simp [decodeLoop, decodeZip, newRecord]
  | cons f t ih =>
    intro ss pre vpre hs hv
    cases ss with
    | nil => simp at hs
    | cons s ss =>
      have hs1 : ss.length = t.length := by simpa using hs
      have hpre : pre ++ f :: t = (pre ++ [f]) ++ t := by simp
      have hlen : pre.length + 1 = (pre ++ [f]).length := by simp
      have hget : (pre ++ f :: t).getD pre.length ⟨"", .Invalid, none⟩ = f := by
        rw [List.getD_eq_getElem?_getD, List.getElem?_append_right (le_refl _)]
        simp
      by_cases he : s = ""
      · have h1 := ih ss (pre ++ [f]) (vpre ++ [zeroValue f.Kind]) hs1 (by simp [hv])
        simp only [decodeLoop, decodeZip, he, if_true]
        rw [hpre, hlen]
        simpa [newRecord] using h1
      · simp only [decodeLoop, decodeZip, he, if_false, hget]
        cases hsf : setField host f s with
        | error e => simp [newRecord]
        | ok x =>
          have h1 := ih ss (pre ++ [f]) (vpre ++ [x]) hs1 (by simp [hv])
          have hset : (vpre ++ newRecord (f :: t)).set pre.length x
              = (vpre ++ [x]) ++ newRecord t := by
            rw [← hv]
            simp [newRecord, List.set_append]
          simp only [hset]
          rw [hpre, hlen]
          simpa using h1

theorem recordToValue_eq_decodeZip (host : Host) (ss : Row) (t : StructType)
    (h : ss.length = t.length) : recordToValue host ss t = decodeZip host t ss := by
  have := decodeLoop_eq_decodeZip host t ss [] [] h rfl
  simp only [recordToValue, h, ne_eq, not_true_eq_false, if_false]
  simpa using this

/-! ## Lemmas on `strconv` and `fmt` -/

theorem digitVal_of_digit (c : Char) (h : isDecimalDigit c = true) :
    digitVal c = some (c.toNat - 48) := by
  simp only [isDecimalDigit, decide_eq_true_eq] at h
  simp [digitVal, h]

theorem digitVal_lt_ten (c : Char) (d : Nat) (h : digitVal c = some d) (hd : d < 10) :
    isDecimalDigit c = true ∧ d = c.toNat - 48 := by
  unfold digitVal at h
  split at h
  · rename_i hc
    simp only [Option.some.injEq] at h
    exact ⟨by simp [isDecimalDigit, hc], h.symm⟩
  · split at h
    · simp only [Option.some.injEq] at h
      omega
    · simp at h

theorem digitsValueFrom_ge (ds : List Char) : ∀ n, n ≤ digitsValueFrom n ds := by
  induction ds with
  | nil => intro n; simp [digitsValueFrom]
  | cons c cs ih =>
    intro n
    have := ih (10 * n + (c.toNat - 48))
    simp only [digitsValueFrom, List.foldl_cons] at this ⊢
    omega

theorem parseUintLoop_digits (cs : List Char) :
    ∀ n, cs.all isDecimalDigit = true → digitsValueFrom n cs < 18446744073709551616 →
      parseUintLoop 10 18446744073709551615 1844674407370955162 cs n
        = (digitsValueFrom n cs, none) := by
  induction cs with
  | nil => intro n _ _; simp [parseUintLoop, digitsValueFrom]
  | cons c cs ih =>
    intro n hall hlt
    simp only [List.all_cons, Bool.and_eq_true] at hall
    have hc := hall.1
    have hge := digitsValueFrom_ge cs (10 * n + (c.toNat - 48))
    have hstep : digitsValueFrom n (c :: cs) = digitsValueFrom (10 * n + (c.toNat - 48)) cs := by
      simp [digitsValueFrom]
    rw [hstep] at hlt
    have hd : c.toNat - 48 < 10 := by
      simp only [isDecimalDigit, decide_eq_true_eq] at hc
      omega
    have h1 : ¬ (c.toNat - 48 ≥ 10) := by omega
    have h2 : ¬ (n ≥ 1844674407370955162) := by omega
    have h3 : (10 * n + (c.toNat - 48)) % 2 ^ 64 = 10 * n + (c.toNat - 48) := by
      norm_num
      omega
    have h4 : n * 10 % 2 ^ 64 = 10 * n := by
      norm_num
      omega
    have h5 : ¬ (10 * n + (c.toNat - 48) < 10 * n ∨ 10 * n + (c.toNat - 48) > 18446744073709551615) := by
      omega
    rw [hstep]
    simp only [parseUintLoop, digitVal_of_digit c hc, h1, h2, if_false, h4, h3, h5]
    exact ih _ hall.2 hlt

theorem parseUintLoop_ok (cs : List Char) :
    ∀ n m, n < 18446744073709551616 →
      parseUintLoop 10 18446744073709551615 1844674407370955162 cs n = (m, none) →
      cs.all isDecimalDigit = true ∧ m = digitsValueFrom n cs ∧ m < 18446744073709551616 := by
  induction cs with
  | nil =>
    intro n m hn h
    simp only [parseUintLoop, Prod.mk.injEq, and_true] at h
    subst h
    exact ⟨by simp, by simp [digitsValueFrom], hn⟩
  | cons c cs ih =>
    intro n m hn h
    simp only [parseUintLoop] at h
    cases hdv : digitVal c with
    | none => simp [hdv] at h
    | some d =>
      simp only [hdv] at h
      by_cases h1 : d ≥ 10
      · simp [h1] at h
      · by_cases h2 : n ≥ 1844674407370955162
        · simp [h1, h2] at h
        · simp only [h1, h2, if_false] at h
          have hdig := digitVal_lt_ten c d hdv (by omega)
          have h4 : n * 10 % 2 ^ 64 = 10 * n := by
            norm_num
            omega
          rw [h4] at h
          simp only [Nat.reducePow, gt_iff_lt] at h
          by_cases h5 : (10 * n + d) % 18446744073709551616 < 10 * n ∨
              18446744073709551615 < (10 * n + d) % 18446744073709551616
          · simp [h5] at h
          · simp only [h5, if_false] at h
            have h3 : (10 * n + d) % 18446744073709551616 = 10 * n + d := by
              omega
            rw [h3] at h
            obtain ⟨ha, hb, hc⟩ := ih _ _ (by omega) h
            refine ⟨by simp [hdig.1, ha], ?_, hc⟩
            rw [hb, hdig.2]
            simp [digitsValueFrom]

theorem parseUintLoop_range (cs : List Char) :
    ∀ n m, parseUintLoop 10 18446744073709551615 1844674407370955162 cs n
        = (m, some .ErrRange) → m = 18446744073709551615 := by
  induction cs with
  | nil => intro n m h; simp [parseUintLoop] at h
  | cons c cs ih =>
    intro n m h
    simp only [parseUintLoop] at h
    split at h
    · simp at h
    · split at h
      · simp at h
      · split at h
        · simp only [Prod.mk.injEq, and_true] at h
          exact h.symm
        · split at h
          · simp only [Prod.mk.injEq, and_true] at h
            exact h.symm
          · exact ih _ _ h

theorem ParseUint_unfold (body : List Char) (h : body ≠ []) :
    ParseUint body 10 64 =
      match parseUintLoop 10 18446744073709551615 1844674407370955162 body 0 with
      | (n, none) => (n, none)
      | (n, some e) => (n, some ⟨"ParseUint", String.mk body, e⟩) := by
  simp [ParseUint, h]

theorem ParseUint_ok (body : List Char) (un : Nat) (h : ParseUint body 10 64 = (un, none)) :
    body ≠ [] ∧ body.all isDecimalDigit = true ∧ un = digitsValue body
      ∧ un < 18446744073709551616 := by
  by_cases hb : body = []
  · simp [ParseUint, hb] at h
  · rw [ParseUint_unfold body hb] at h
    cases hl : parseUintLoop 10 18446744073709551615 1844674407370955162 body 0 with
    | mk n e =>
      cases e with
      | some e => simp [hl] at h
      | none =>
        simp only [hl, Prod.mk.injEq, and_true] at h
        subst h
        obtain ⟨ha, hb1, hc⟩ := parseUintLoop_ok body 0 n (by omega) hl
        exact ⟨hb, ha, hb1, hc⟩

theorem ParseUint_digits (body : List Char) (hb : body ≠ [])
    (hall : body.all isDecimalDigit = true) (hlt : digitsValue body < 18446744073709551616) :
    ParseUint body 10 64 = (digitsValue body, none) := by
  rw [ParseUint_unfold body hb, parseUintLoop_digits body 0 hall hlt]
  rfl

theorem ParseUint_range (body : List Char) (un : Nat) (e : NumError)
    (h : ParseUint body 10 64 = (un, some e)) (he : e.Err = .ErrRange) :
    un = 18446744073709551615 := by
  by_cases hb : body = []
  · simp [ParseUint, hb] at h
    rw [← h.2] at he
    simp at he
  · rw [ParseUint_unfold body hb] at h
    cases hl : parseUintLoop 10 18446744073709551615 1844674407370955162 body 0 with
    | mk n k =>
      cases k with
      | none => simp [hl] at h
      | some k =>
        simp only [hl, Prod.mk.injEq, Option.some.injEq] at h
        obtain ⟨h1, h2⟩ := h
        subst h1
        rw [← h2] at he
        simp only at he
        subst he
        exact parseUintLoop_range body 0 n hl

theorem splitSign_other (l : List Char) (h1 : ∀ r, l ≠ '+' :: r) (h2 : ∀ r, l ≠ '-' :: r) :
    splitSign l = (false, l) := by
  unfold splitSign
  split
  · exact absurd rfl (h1 _)
  · exact absurd rfl (h2 _)
  · rfl

theorem dropSign_eq (l : List Char) : dropSign l = (splitSign l).2 := by
  unfold dropSign
  split
  · rfl
  · rfl
  · rename_i h1 h2
    rw [splitSign_other l h1 h2]

theorem literalValue_eq (s : String) :
    literalValue s = if (splitSign s.data).1 then -(digitsValue (splitSign s.data).2 : Int)
      else (digitsValue (splitSign s.data).2 : Int) := by
  unfold literalValue
  split
  · rename_i h
    rw [h]
    simp [splitSign]
  · rename_i h
    rw [h]
    simp [splitSign]
  · rename_i h1 h2
    rw [splitSign_other s.data h2 h1]
    simp

theorem ParseInt_cases (s : String) (hs : s ≠ "") :
    ParseInt s 10 64 =
      match ParseUint (splitSign s.data).2 10 64 with
      | (_, some ⟨_, _, .ErrSyntax⟩) => (0, some ⟨"ParseInt", s, .ErrSyntax⟩)
      | (un, _) =>
        if !(splitSign s.data).1 ∧ un ≥ 9223372036854775808 then
          (wrapInt 64 (9223372036854775807 : Nat), some ⟨"ParseInt", s, .ErrRange⟩)
        else if (splitSign s.data).1 ∧ un > 9223372036854775808 then
          (wrapInt 64 (-wrapInt 64 (9223372036854775808 : Nat)), some ⟨"ParseInt", s, .ErrRange⟩)
        else
          (if (splitSign s.data).1 then wrapInt 64 (-wrapInt 64 un) else wrapInt 64 un, none) := by
  simp only [ParseInt, hs, if_false]
  rfl

theorem wrapInt64_of_lt (x : Int) (h1 : -9223372036854775808 ≤ x) (h2 : x < 9223372036854775808) :
    wrapInt 64 x = x := by
  unfold wrapInt
  norm_num
  omega

theorem ParseInt_ok (s : String) (v : Int) (h : ParseInt s 10 64 = (v, none)) :
    isIntLiteral s = true ∧ v = literalValue s ∧
      -9223372036854775808 ≤ v ∧ v < 9223372036854775808 := by
  have hs : s ≠ "" := by
    intro hs
    simp [ParseInt, hs] at h
  rw [ParseInt_cases s hs] at h
  cases hu : ParseUint (splitSign s.data).2 10 64 with
  | mk un err =>
    cases err with
    | some e =>
      rcases e with ⟨fn, num, k⟩
      cases k with
      | ErrSyntax => simp [hu] at h
      | ErrRange =>
        have hun := ParseUint_range _ un _ hu rfl
        subst hun
        cases hneg : (splitSign s.data).1 <;> simp [hu, hneg] at h
    | none =>
      obtain ⟨hb, hall, hval, hlt⟩ := ParseUint_ok _ un hu
      simp only [hu] at h
      have hlit : isIntLiteral s = true := by
        simp only [isIntLiteral, dropSign_eq, Bool.and_eq_true, decide_eq_true_eq]
        exact ⟨hb, hall⟩
      refine ⟨hlit, ?_⟩
      rw [literalValue_eq, ← hval]
      cases hneg : (splitSign s.data).1
      · simp only [hneg, Bool.not_false, true_and, Bool.false_eq_true, false_and, if_false] at h
        split at h
        · simp at h
        · rename_i hc
          simp only [Prod.mk.injEq, and_true] at h
          rw [wrapInt64_of_lt (un : Int) (by omega) (by omega)] at h
          subst h
          simp
          omega
      · simp only [hneg, Bool.not_true, Bool.false_eq_true, false_and, if_false, true_and,
          if_true] at h
        split at h
        · simp at h
        · rename_i hc
          simp only [Prod.mk.injEq, and_true] at h
          subst h
          simp only [if_true]
          unfold wrapInt
          norm_num
          omega

theorem ParseInt_literal (s : String) (hlit : isIntLiteral s = true)
    (h1 : -9223372036854775808 ≤ literalValue s) (h2 : literalValue s < 9223372036854775808) :
    ParseInt s 10 64 = (literalValue s, none) := by
  simp only [isIntLiteral, dropSign_eq, Bool.and_eq_true, decide_eq_true_eq] at hlit
  have hs : s ≠ "" := by
    intro hs
    subst hs
    exact hlit.1 (by decide)
  rw [literalValue_eq] at h1 h2
  rw [ParseInt_cases s hs, literalValue_eq]
  cases hneg : (splitSign s.data).1
  · simp only [hneg, Bool.false_eq_true, if_false] at h1 h2
    rw [ParseUint_digits _ hlit.1 hlit.2 (by omega)]
    have hc : ¬ (digitsValue (splitSign s.data).2 ≥ 9223372036854775808) := by omega
    simp only [Bool.not_false, true_and, hc, if_false, Bool.false_eq_true, false_and]
    rw [wrapInt64_of_lt _ (by omega) (by omega)]
  · simp only [hneg, if_true] at h1 h2
    rw [ParseUint_digits _ hlit.1 hlit.2 (by omega)]
    have hc : ¬ (digitsValue (splitSign s.data).2 > 9223372036854775808) := by omega
    simp only [Bool.not_true, Bool.false_eq_true, false_and, if_false, true_and, hc, if_true]
    unfold wrapInt
    norm_num
    omega

theorem toNat_digitChar (d : Nat) (h : d < 10) : (Char.ofNat (48 + d)).toNat = 48 + d := by
  interval_cases d <;> rfl

theorem fmtUnsigned_append (fuel : Nat) :
    ∀ u buf, fmtUnsigned fuel u buf = fmtUnsigned fuel u [] ++ buf := by
  induction fuel with
  | zero => intro u buf; simp [fmtUnsigned]
  | succ fuel ih =>
    intro u buf
    simp only [fmtUnsigned]
    split
    · rw [ih (u / 10) (_ :: buf), ih (u / 10) [_]]
      simp
    · simp

theorem digitsValueFrom_append (a b : List Char) (n : Nat) :
    digitsValueFrom n (a ++ b) = digitsValueFrom (digitsValueFrom n a) b := by
  simp [digitsValueFrom]

/-- The digits `fmtUnsigned` writes: not empty, digits only, no leading zero unless the
number is zero, and they denote the number. -/
theorem fmtUnsigned_spec (fuel : Nat) :
    ∀ u, u < fuel →
      fmtUnsigned fuel u [] ≠ [] ∧ (fmtUnsigned fuel u []).all isDecimalDigit = true ∧
      (∀ n, digitsValueFrom n (fmtUnsigned fuel u [])
        = n * 10 ^ (fmtUnsigned fuel u []).length + u) ∧
      (u ≠ 0 → (fmtUnsigned fuel u []).head? ≠ some '0') ∧
      (u = 0 → fmtUnsigned fuel u [] = ['0']) := by
  induction fuel with
  | zero => intro u h; omega
  | succ fuel ih =>
    intro u hu
    simp only [fmtUnsigned]
    by_cases h10 : u ≥ 10
    · simp only [h10, if_true]
      rw [fmtUnsigned_append]
      obtain ⟨hne, hall, hval, hhead, _⟩ := ih (u / 10) (by omega)
      have hd := toNat_digitChar (u % 10) (by omega)
      refine ⟨by simp, ?_, ?_, ?_, by omega⟩
      · simp only [List.all_append, hall, Bool.true_and, List.all_cons, List.all_nil,
          Bool.and_true, isDecimalDigit, decide_eq_true_eq, hd]
        omega
      · intro n
        rw [digitsValueFrom_append, hval n]
        simp only [digitsValueFrom, List.foldl_cons, List.foldl_nil, hd, List.length_append,
          List.length_singleton, pow_succ]
        have := Nat.div_add_mod u 10
        have e : 48 + u % 10 - 48 = u % 10 := by omega
        rw [e]
        nlinarith
      · intro _
        have := hhead (by omega)
        cases hl : fmtUnsigned fuel (u / 10) [] with
        | nil => exact absurd hl hne
        | cons c cs =>
          rw [hl] at this
          simpa using this
    · simp only [h10, if_false]
      have hd := toNat_digitChar u (by omega)
      refine ⟨by simp, ?_, ?_, ?_, ?_⟩
      · simp only [List.all_cons, List.all_nil, Bool.and_true, isDecimalDigit,
          decide_eq_true_eq, hd]
        omega
      · intro n
        simp only [digitsValueFrom, List.foldl_cons, List.foldl_nil, hd, List.length_singleton,
          pow_one]
        omega
      · intro hu0
        simp only [List.head?_cons, ne_eq, Option.some.injEq]
        intro hc
        have := congrArg Char.toNat hc
        rw [hd] at this
        have h0 : ('0' : Char).toNat = 48 := rfl
        omega
      · intro hu0
        subst hu0
        rfl

theorem fmtInteger_canonical (n : Int) : IsCanonicalDecimal (fmtInteger n) n := by
  obtain ⟨hne, hall, hval, hhead, hzero⟩ := fmtUnsigned_spec (n.natAbs + 1) n.natAbs (by omega)
  refine ⟨fmtUnsigned (n.natAbs + 1) n.natAbs [], rfl, hne, hall, ?_, ?_⟩
  · intro h0
    by_cases hn : n.natAbs = 0
    · exact hzero hn
    · exact absurd h0 (hhead hn)
  · have := hval 0
    simpa [digitsValue] using this

theorem digits_not_sign (ds : List Char) (hall : ds.all isDecimalDigit = true) :
    (∀ r, ds ≠ '+' :: r) ∧ (∀ r, ds ≠ '-' :: r) := by
  constructor
  · intro r h
    subst h
    simp [isDecimalDigit] at hall
  · intro r h
    subst h
    simp [isDecimalDigit] at hall

theorem canonical_literal (tok : String) (n : Int) (h : IsCanonicalDecimal tok n) :
    isIntLiteral tok = true ∧ literalValue tok = n := by
  obtain ⟨ds, hdata, hne, hall, _, hval⟩ := h
  have hsplit : splitSign tok.data = (decide (n < 0), ds) := by
    by_cases hn : n < 0
    · simp [hdata, hn, splitSign]
    · have := digits_not_sign ds hall
      simp only [hdata, hn, if_false, List.nil_append, decide_False]
      exact splitSign_other ds this.1 this.2
  constructor
  · simp only [isIntLiteral, dropSign_eq, hsplit, Bool.and_eq_true, decide_eq_true_eq]
    exact ⟨hne, hall⟩
  · rw [literalValue_eq, hsplit]
    by_cases hn : n < 0
    · simp only [hn, decide_True, if_true, hval]
      omega
    · simp only [hn, decide_False, Bool.false_eq_true, if_false, hval]
      omega

theorem ParseInt_fmtInteger (n : Int) (h1 : -9223372036854775808 ≤ n)
    (h2 : n < 9223372036854775808) : ParseInt (fmtInteger n) 10 64 = (n, none) := by
  obtain ⟨hlit, hval⟩ := canonical_literal _ n (fmtInteger_canonical n)
  have := ParseInt_literal (fmtInteger n) hlit (by rw [hval]; exact h1) (by rw [hval]; exact h2)
  rw [hval] at this
  exact this

/-! ## The writer -/

theorem Write_accepts (w : Writer) (row : Row) (h : ∀ x ∈ w.faults, x = none) :
    w.Write row = (⟨w.rows ++ [row], w.faults.drop 1, false⟩, none) := by
  unfold Writer.Write
  split
  · rename_i err rest hf
    have := h (some err) (by simp [hf])
    simp at this
  · rename_i rest hf
    simp [hf]
  · rename_i hf
    simp [hf]

theorem writeLoop_accepts (host : Host) (t : StructType) (items : List Record) :
    ∀ cw : Writer, (∀ x ∈ cw.faults, x = none) →
      writeLoop host t items cw
        = (⟨cw.rows ++ items.map (fun e => buildRow host ⟨t, e⟩),
            cw.faults.drop items.length, items = [] ∧ cw.flushed⟩, none) := by
  induction items with
  | nil => intro cw _; simp [writeLoop]
  | cons e rest ih =>
    intro cw h
    simp only [writeLoop, writeRow, Write_accepts cw _ h]
    have h1 : ∀ x ∈ List.drop 1 cw.faults, x = none :=
      fun x hx => h x (List.mem_of_mem_drop hx)
    rw [ih ⟨cw.rows ++ [buildRow host ⟨t, e⟩], cw.faults.drop 1, false⟩ h1]
    simp [Nat.add_comm]

theorem Write_err_external (w w1 : Writer) (row : Row) (e : GoError)
    (h : w.Write row = (w1, some e)) : ∃ msg, e = .external msg := by
  unfold Writer.Write at h
  split at h
  · rename_i err rest hf
    simp only [Prod.mk.injEq, Option.some.injEq] at h
    exact ⟨err, h.2.symm⟩
  · simp at h
  · simp at h

theorem writeLoop_err_external (host : Host) (t : StructType) (items : List Record) :
    ∀ (cw cw1 : Writer) (e : GoError), writeLoop host t items cw = (cw1, some e) →
      ∃ msg, e = .external msg := by
  induction items with
  | nil => intro cw cw1 e h; simp [writeLoop] at h
  | cons x rest ih =>
    intro cw cw1 e h
    simp only [writeLoop] at h
    cases hw : writeRow host cw ⟨t, x⟩ with
    | mk cw2 err =>
      cases err with
      | some err =>
        simp only [hw, Prod.mk.injEq, Option.some.injEq] at h
        obtain ⟨msg, hm⟩ := Write_err_external cw cw2 _ err hw
        exact ⟨msg, by rw [← h.2, hm]⟩
      | none =>
        simp only [hw] at h
        exact ih _ _ _ h

theorem not_emptyInput_external (msg : String) : ¬ IsEmptyInput (.external msg) := by
  intro h
  rcases h with h | ⟨v, h⟩ <;> simp [csvError] at h

theorem not_emptyInput_expected_slice (k : Kind) :
    ¬ IsEmptyInput (csvError "expected a slice, got %v instead" [.kind k]) := by
  intro h
  rcases h with h | ⟨v, h⟩
  · simp [csvError] at h
  · simp only [csvError, GoError.errorf.injEq] at h
    exact absurd h.1 (by decide)

/-- C8: for a struct value of a type with fields `f1..fk`, `writeHeader` hands the writer
the row `[name(f1), ..., name(fk)]`: exactly `k` tokens, the field names as they are in
the type, in declaration order, whatever the field values of the instance. -/
theorem writeHeader_names (w : Writer) (t : StructType) (fields : Record) :
    writeHeader w ⟨t, fields⟩ = w.Write (t.map (fun f => f.Name)) ∧
    (headerRow ⟨t, fields⟩).length = t.length ∧
    (∀ (i : Nat) (f : Field), t[i]? = some f → (headerRow ⟨t, fields⟩)[i]? = some f.Name) ∧
    ∀ fields1 : Record, writeHeader w ⟨t, fields1⟩ = writeHeader w ⟨t, fields⟩ := by
  have h : ∀ fs : Record, headerRow ⟨t, fs⟩ = t.map (fun f => f.Name) :=
    fun fs => headerRow_eq ⟨t, fs⟩
  refine ⟨by simp [writeHeader, h], by simp [h], ?_, ?_⟩
  · intro i f hf
    simp [h, hf]
  · intro fields1
    simp [writeHeader, h]

/-- C3: for a non-empty slice `[e1..en]` and a writer that reports no error, `WriteCSV`
returns `nil` and has handed the writer exactly `n + 1` rows after those it held: the
field names of the element type, then the row of `e1`, ..., the row of `en`, in the order
of the slice; it leaves the writer flushed. -/
theorem WriteCSV_rows (host : Host) (cw : Writer) (t : StructType) (c : List Record)
    (hc : c ≠ []) (hw : ∀ x ∈ cw.faults, x = none) :
    WriteCSV host cw (.slice t c)
      = .returned none
          ⟨cw.rows ++ t.map (fun f => f.Name) :: c.map (fun e => buildRow host ⟨t, e⟩),
           cw.faults.drop (c.length + 1), true⟩ := by
  have hlen : ¬ c.length = 0 := by
    intro h
    exact hc (List.length_eq_zero.mp h)
  have h1 : ∀ x ∈ List.drop 1 cw.faults, x = none :=
    fun x hx => hw x (List.mem_of_mem_drop hx)
  simp only [WriteCSV, reflectSlice, goIsNil, goKind, ne_eq, not_true_eq_false, if_false, hlen,
    writeHeader, headerRow_eq, Write_accepts cw _ hw]
  rw [writeLoop_accepts host t c ⟨cw.rows ++ [t.map (fun f => f.Name)], cw.faults.drop 1, false⟩ h1]
  simp [Writer.Flush, Nat.add_comm]

/-- Witness of C3 on a two-element slice and a fresh writer. -/
theorem WriteCSV_rows_witness :
    WriteCSV plainHost ⟨[], [], false⟩
        (.slice [⟨"A", .Int, none⟩, ⟨"B", .String, none⟩]
          [[.int .Int 1, .string "x"], [.int .Int (-2), .string ""]])
      = .returned none ⟨[["A", "B"], ["1", "x"], ["-2", ""]], [], true⟩ :=
  WriteCSV_rows plainHost ⟨[], [], false⟩ [⟨"A", .Int, none⟩, ⟨"B", .String, none⟩]
    [[.int .Int 1, .string "x"], [.int .Int (-2), .string ""]] (by decide) (by decide)

/-- C6: `WriteCSV` on a nil slice and on a slice of length 0 returns an EmptyInput error
and leaves the writer as it was, no row handed to it and no flush; and `WriteCSV` returns
an EmptyInput error for no other argument than a nil value or an empty slice. -/
theorem WriteCSV_empty (host : Host) (cw : Writer) :
    WriteCSV host cw (.nilOf .Slice)
      = .returned (some (csvError "expected %v to have a non-nil value"
          [.goValue (.nilOf .Slice)])) cw ∧
    (∀ t, WriteCSV host cw (.slice t [])
      = .returned (some (csvError "data is empty" [])) cw) ∧
    ∀ slice e cw1, IsEmptyInput e → WriteCSV host cw slice = .returned (some e) cw1 →
      (∃ k, slice = .nilOf k) ∨ (∃ t, slice = .slice t []) := by
  refine ⟨by simp [WriteCSV, reflectSlice, goIsNil, goKind],
    fun t => by simp [WriteCSV, reflectSlice, goIsNil, goKind], ?_⟩
  intro slice e cw1 he h
  cases slice with
  | untypedNil => simp [WriteCSV, reflectSlice, goIsNil, goKind] at h
  | nilOf k => exact Or.inl ⟨k, rfl⟩
  | slice t items =>
    cases items with
    | nil => exact Or.inr ⟨t, rfl⟩
    | cons x rest =>
      exfalso
      simp only [WriteCSV, reflectSlice, goIsNil, goKind, ne_eq, not_true_eq_false, if_false,
        List.length_cons, Nat.add_one_ne_zero] at h
      cases hh : writeHeader cw ⟨t, (x :: rest).getD 0 []⟩ with
      | mk cw2 err =>
        cases err with
        | some err =>
          simp only [hh, Outcome.returned.injEq, Option.some.injEq] at h
          obtain ⟨msg, hm⟩ := Write_err_external cw cw2 _ err hh
          rw [← h.1, hm] at he
          exact not_emptyInput_external msg he
        | none =>
          simp only [hh] at h
          cases hl : writeLoop host t (x :: rest) cw2 with
          | mk cw3 err =>
            cases err with
            | some err =>
              simp only [hl, Outcome.returned.injEq, Option.some.injEq] at h
              obtain ⟨msg, hm⟩ := writeLoop_err_external host t _ cw2 cw3 err hl
              rw [← h.1, hm] at he
              exact not_emptyInput_external msg he
            | none => simp [hl] at h
  | ptrToSlice t items =>
    exfalso
    simp only [WriteCSV, reflectSlice, goIsNil, goKind, ne_eq, reduceCtorEq, not_false_eq_true,
      if_true, Outcome.returned.injEq, Option.some.injEq] at h
    rw [← h.1] at he
    exact not_emptyInput_expected_slice _ he
  | ptrTo k =>
    exfalso
    simp only [WriteCSV, reflectSlice, goIsNil, goKind, ne_eq, reduceCtorEq, not_false_eq_true,
      if_true, Outcome.returned.injEq, Option.some.injEq] at h
    rw [← h.1] at he
    exact not_emptyInput_expected_slice _ he
  | val k =>
    exfalso
    cases k <;>
      simp only [WriteCSV, reflectSlice, goIsNil, goKind, ne_eq, reduceCtorEq,
        not_false_eq_true, not_true_eq_false, if_false, if_true, Outcome.returned.injEq,
        Option.some.injEq] at h <;>
      (rw [← h.1] at he; exact not_emptyInput_expected_slice _ he)

/-! ## The decoder -/

theorem newRecord_getElem? (t : StructType) (i : Nat) (f : Field) (h : t[i]? = some f) :
    (newRecord t)[i]? = some (zeroValue f.Kind) := by
  simp [newRecord, h]

theorem decodeZip_length (host : Host) (t : StructType) :
    ∀ ss : List String, ss.length = t.length → (decodeZip host t ss).1.length = t.length := by
  induction t with
  | nil => intro ss h; cases ss <;> simp [decodeZip]
  | cons f t ih =>
    intro ss h
    cases ss with
    | nil => simp at h
    | cons s ss =>
      have h1 : ss.length = t.length := by simpa using h
      simp only [decodeZip]
      split
      · simp [ih ss h1]
      · split
        · simp [newRecord]
        · simp [ih ss h1]

/-- A field whose token is empty is at zero in the struct `decodeZip` gives, error or
not. -/
theorem decodeZip_empty (host : Host) (t : StructType) :
    ∀ (ss : List String) (i : Nat) (f : Field), ss.length = t.length →
      ss[i]? = some "" → t[i]? = some f →
      (decodeZip host t ss).1[i]? = some (zeroValue f.Kind) := by
  induction t with
  | nil => intro ss i f _ _ hf; simp at hf
  | cons f0 t ih =>
    intro ss i f h hs hf
    cases ss with
    | nil => simp at h
    | cons s ss =>
      have h1 : ss.length = t.length := by simpa using h
      cases i with
      | zero =>
        simp only [List.getElem?_cons_zero, Option.some.injEq] at hs hf
        subst hs hf
        simp [decodeZip]
      | succ j =>
        simp only [List.getElem?_cons_succ] at hs hf
        simp only [decodeZip]
        split
        · simpa using ih ss j f h1 hs hf
        · split
          · simpa using newRecord_getElem? t j f hf
          · simpa using ih ss j f h1 hs hf

/-- The error of `decodeZip` is the error of the switch on the first token that it
rejects. -/
theorem decodeZip_error (host : Host) (t : StructType) :
    ∀ (ss : List String) (e : GoError), ss.length = t.length →
      ((decodeZip host t ss).2 = some e ↔
        ∃ (i : Nat) (f : Field) (s : String), t[i]? = some f ∧ ss[i]? = some s ∧
          decodeToken host f s = .error e ∧
          ∀ (j : Nat) (f1 : Field) (s1 : String), j < i → t[j]? = some f1 → ss[j]? = some s1 →
            ∃ x, decodeToken host f1 s1 = .ok x) := by
  induction t with
  | nil =>
    intro ss e h
    cases ss <;> simp [decodeZip]
  | cons f0 t ih =>
    intro ss e h
    cases ss with
    | nil => simp at h
    | cons s ss =>
      have h1 : ss.length = t.length := by simpa using h
      have key : ∀ x, decodeToken host f0 s = .ok x →
          ((decodeZip host t ss).2 = some e ↔
            ∃ (i : Nat) (f : Field) (s2 : String), (f0 :: t)[i]? = some f ∧
              (s :: ss)[i]? = some s2 ∧ decodeToken host f s2 = .error e ∧
              ∀ (j : Nat) (f1 : Field) (s1 : String), j < i → (f0 :: t)[j]? = some f1 →
                (s :: ss)[j]? = some s1 → ∃ x, decodeToken host f1 s1 = .ok x) := by
        intro x hx
        rw [ih ss e h1]
        constructor
        · rintro ⟨i, f, s2, hf, hs, he, hj⟩
          refine ⟨i + 1, f, s2, by simpa using hf, by simpa using hs, he, ?_⟩
          intro j f1 s1 hlt hf1 hs1
          cases j with
          | zero =>
            simp only [List.getElem?_cons_zero, Option.some.injEq] at hf1 hs1
            subst hf1 hs1
            exact ⟨x, hx⟩
          | succ j =>
            simp only [List.getElem?_cons_succ] at hf1 hs1
            exact hj j f1 s1 (by omega) hf1 hs1
        · rintro ⟨i, f, s2, hf, hs, he, hj⟩
          cases i with
          | zero =>
            simp only [List.getElem?_cons_zero, Option.some.injEq] at hf hs
            subst hf hs
            rw [hx] at he
            cases he
          | succ i =>
            simp only [List.getElem?_cons_succ] at hf hs
            refine ⟨i, f, s2, hf, hs, he, ?_⟩
            intro j f1 s1 hlt hf1 hs1
            exact hj (j + 1) f1 s1 (by omega) (by simpa using hf1) (by simpa using hs1)
      by_cases hse : s = ""
      · have hx : decodeToken host f0 s = .ok (zeroValue f0.Kind) := by simp [decodeToken, hse]
        have := key _ hx
        simpa [decodeZip, hse] using this
      · cases hsf : setField host f0 s with
        | ok x =>
          have hx : decodeToken host f0 s = .ok x := by simp [decodeToken, hse, hsf]
          have := key _ hx
          simpa [decodeZip, hse, hsf] using this
        | error e0 =>
          have hx : decodeToken host f0 s = .error e0 := by simp [decodeToken, hse, hsf]
          simp only [decodeZip, hse, if_false, hsf, Option.some.injEq]
          constructor
          · intro he
            subst he
            exact ⟨0, f0, s, by simp, by simp, hx, by intro j _ _ hlt; omega⟩
          · rintro ⟨i, f, s2, hf, hs, he, hj⟩
            cases i with
            | zero =>
              simp only [List.getElem?_cons_zero, Option.some.injEq] at hf hs
              subst hf hs
              rw [hx] at he
              cases he
              rfl
            | succ i =>
              obtain ⟨x, hx1⟩ := hj 0 f0 s (by omega) (by simp) (by simp)
              rw [hx] at hx1
              cases hx1

/-- On success every field of the struct `decodeZip` gives is what `decodeToken` made of
its token. -/
theorem decodeZip_ok (host : Host) (t : StructType) :
    ∀ (ss : List String), ss.length = t.length → (decodeZip host t ss).2 = none →
      ∀ (i : Nat) (f : Field) (s : String), t[i]? = some f → ss[i]? = some s →
        ∃ x, decodeToken host f s = .ok x ∧ (decodeZip host t ss).1[i]? = some x := by
  induction t with
  | nil => intro ss _ _ i f s hf; simp at hf
  | cons f0 t ih =>
    intro ss h hnone i f s hf hs
    cases ss with
    | nil => simp at h
    | cons s0 ss =>
      have h1 : ss.length = t.length := by simpa using h
      by_cases hse : s0 = ""
      · simp only [decodeZip, hse, if_true] at hnone ⊢
        cases i with
        | zero =>
          simp only [List.getElem?_cons_zero, Option.some.injEq] at hf hs
          subst hf hs
          exact ⟨zeroValue f0.Kind, by simp [decodeToken, hse], by simp⟩
        | succ i =>
          simp only [List.getElem?_cons_succ] at hf hs
          simpa using ih ss h1 hnone i f s hf hs
      · cases hsf : setField host f0 s0 with
        | error e0 => simp [decodeZip, hse, hsf] at hnone
        | ok x =>
          simp only [decodeZip, hse, if_false, hsf] at hnone ⊢
          cases i with
          | zero =>
            simp only [List.getElem?_cons_zero, Option.some.injEq] at hf hs
            subst hf hs
            exact ⟨x, by simp [decodeToken, hse, hsf], by simp⟩
          | succ i =>
            simp only [List.getElem?_cons_succ] at hf hs
            simpa using ih ss h1 hnone i f s hf hs

theorem decodeZip_all_empty (host : Host) (t : StructType) :
    ∀ ss : List String, ss.length = t.length → (∀ s ∈ ss, s = "") →
      decodeZip host t ss = (newRecord t, none) := by
  induction t with
  | nil => intro ss h _; cases ss <;> simp [decodeZip, newRecord]
  | cons f t ih =>
    intro ss h hall
    cases ss with
    | nil => simp at h
    | cons s ss =>
      have h1 : ss.length = t.length := by simpa using h
      have hs : s = "" := hall s (by simp)
      have := ih ss h1 (fun s1 hs1 => hall s1 (by simp [hs1]))
      simp [decodeZip, hs, this, newRecord]

theorem decodeToken_error (host : Host) (f : Field) (s : String) (e : GoError)
    (h : decodeToken host f s = .error e) : s ≠ "" ∧ setField host f s = .error e := by
  unfold decodeToken at h
  split at h
  · cases h
  · rename_i hs
    exact ⟨hs, h⟩

theorem setField_int (host : Host) (f : Field) (s : String) (h : isIntKind f.Kind = true) :
    setField host f s =
      match ParseInt s 10 64 with
      | (_, some err) => .error (typeError f.Kind f.Name "int" err)
      | (theInt, none) => .ok (.int f.Kind (wrapInt (intBits f.Kind) theInt)) := by
  rcases f with ⟨name, k, dt⟩
  cases k <;> simp [isIntKind] at h <;> rfl

theorem readLoop_prefix (host : Host) (t : StructType) (pre : List Row) :
    ∀ (dst : List Record) (rest : Reader),
      (∀ r ∈ pre, (recordToValue host r t).2 = none) →
      readLoop host t (pre.map .ok ++ rest) true dst
        = readLoop host t rest true (dst ++ pre.map (fun r => (recordToValue host r t).1)) := by
  induction pre with
  | nil => intro dst rest _; simp
  | cons r pre ih =>
    intro dst rest h
    have hr := h r (by simp)
    have hpre : ∀ r1 ∈ pre, (recordToValue host r1 t).2 = none :=
      fun r1 h1 => h r1 (by simp [h1])
    simp only [List.map_cons, List.cons_append, readLoop, Bool.not_true, Bool.false_eq_true,
      if_false]
    cases hrv : recordToValue host r t with
    | mk rv err =>
      rw [hrv] at hr
      simp only at hr
      subst hr
      have := ih (dst ++ [rv]) rest hpre
      simpa using this

theorem ReadCSV_ptrToSlice (host : Host) (header : Row) (cr : Reader) (t : StructType)
    (d0 : List Record) :
    ReadCSV host (.ok header :: cr) (.ptrToSlice t d0)
      = .returned (readLoop host t cr true d0).1
          (.ptrToSlice t (readLoop host t cr true d0).2) := by
  simp [ReadCSV, goIsNil, goKind, goElemKind, readLoop]

/-! ## The reader and the decoder: the claims -/

/-- C4: in a row with as many tokens as the type has fields, every field whose token is
the empty string is at the zero value of its kind in the struct `recordToValue` returns,
whatever its kind; an error, if one is returned, is the error of the switch on a token
that is not empty; and a row of empty tokens only gives the all-zero struct and no
error. -/
theorem recordToValue_empty_tokens (host : Host) (t : StructType) (ss : Row)
    (hlen : ss.length = t.length) :
    (∀ (i : Nat) (f : Field), ss[i]? = some "" → t[i]? = some f →
      (recordToValue host ss t).1[i]? = some (zeroValue f.Kind)) ∧
    (∀ e, (recordToValue host ss t).2 = some e →
      ∃ (i : Nat) (f : Field) (s : String), t[i]? = some f ∧ ss[i]? = some s ∧ s ≠ "" ∧
        setField host f s = .error e) ∧
    ((∀ s ∈ ss, s = "") → recordToValue host ss t = (newRecord t, none)) := by
  rw [recordToValue_eq_decodeZip host ss t hlen]
  refine ⟨fun i f hs hf => decodeZip_empty host t ss i f hlen hs hf, ?_, ?_⟩
  · intro e he
    obtain ⟨i, f, s, hf, hs, hd, _⟩ := (decodeZip_error host t ss e hlen).mp he
    obtain ⟨h1, h2⟩ := decodeToken_error host f s e hd
    exact ⟨i, f, s, hf, hs, h1, h2⟩
  · exact decodeZip_all_empty host t ss hlen

/-- Witness of C4: three empty tokens for an integer field, a struct-kind field and a
float field. -/
theorem recordToValue_empty_tokens_witness :
    (["", "", ""] : Row).length
        = ([⟨"A", .Int, none⟩, ⟨"B", .Struct, none⟩, ⟨"C", .Float64, none⟩] : StructType).length ∧
      recordToValue plainHost ["", "", ""] [⟨"A", .Int, none⟩, ⟨"B", .Struct, none⟩, ⟨"C", .Float64, none⟩]
        = ([.int .Int 0, .other .Struct 0, .float64 ⟨0⟩], none) :=
  ⟨by decide,
   (recordToValue_empty_tokens plainHost [⟨"A", .Int, none⟩, ⟨"B", .Struct, none⟩, ⟨"C", .Float64, none⟩]
      ["", "", ""] (by decide)).2.2 (by decide)⟩

/-- C9, the code at the failing input: for a field of kind `int8` and the token `"300"`,
`recordToValue` returns no error and the field holds 44, while the token is an integer
literal that denotes 300. -/
theorem recordToValue_int8_wraps :
    recordToValue plainHost ["300"] [⟨"W", .Int8, none⟩] = ([.int .Int8 44], none) ∧
      isSupportedKind .Int8 = true ∧ isIntLiteral "300" = true ∧ literalValue "300" = 300 ∧
      parsedValue plainHost .Int8 "300" = .int .Int8 300 := by
  decide

/-- The switch on a token it accepts gives the value the token parses to under the
kind of the field, when that kind is string, `int`, `int64`, `float64` or bool. -/
theorem setField_parsed (host : Host) (f : Field) (s : String) (x : Value)
    (hk : f.Kind = .String ∨ f.Kind = .Int ∨ f.Kind = .Int64 ∨ f.Kind = .Float64 ∨ f.Kind = .Bool)
    (h : setField host f s = .ok x) : x = parsedValue host f.Kind s := by
  rcases f with ⟨name, k, dt⟩
  simp only at hk
  rcases hk with hk | hk | hk | hk | hk <;> subst hk
  · simp only [setField, Except.ok.injEq] at h
    simp [parsedValue, ← h]
  · simp only [setField] at h
    cases hp : ParseInt s 10 64 with
    | mk v err =>
      cases err with
      | some e => simp [hp] at h
      | none =>
        obtain ⟨_, hv, h1, h2⟩ := ParseInt_ok s v hp
        simp only [hp, Except.ok.injEq] at h
        rw [← h, parsedValue, ← hv]
        simp only [intBits, Value.int.injEq, true_and]
        exact wrapInt64_of_lt v h1 h2
  · simp only [setField] at h
    cases hp : ParseInt s 10 64 with
    | mk v err =>
      cases err with
      | some e => simp [hp] at h
      | none =>
        obtain ⟨_, hv, h1, h2⟩ := ParseInt_ok s v hp
        simp only [hp, Except.ok.injEq] at h
        rw [← h, parsedValue, ← hv]
        simp only [intBits, Value.int.injEq, true_and]
        exact wrapInt64_of_lt v h1 h2
  · simp only [setField] at h
    cases hp : host.ParseFloat s with
    | mk v err =>
      cases err with
      | some e => simp [hp] at h
      | none =>
        simp only [hp, Except.ok.injEq] at h
        simp [parsedValue, hp, ← h]
  · simp only [setField] at h
    cases hp : ParseBool s with
    | mk v err =>
      cases err with
      | some e => simp [hp] at h
      | none =>
        simp only [hp, Except.ok.injEq] at h
        simp [parsedValue, hp, ← h]

/-- The part of C9 that holds: when every field is of kind string, `int`, `int64`,
`float64` or bool and `recordToValue` returns no error, each field of the struct is the
value its token parses to under its kind, or the zero value when the token is empty. -/
theorem recordToValue_parsed_wide (host : Host) (t : StructType) (ss : Row)
    (hk : ∀ f ∈ t, f.Kind = .String ∨ f.Kind = .Int ∨ f.Kind = .Int64 ∨ f.Kind = .Float64 ∨
      f.Kind = .Bool)
    (hlen : ss.length = t.length) (hok : (recordToValue host ss t).2 = none) :
    ∀ (i : Nat) (f : Field) (s : String), t[i]? = some f → ss[i]? = some s →
      (recordToValue host ss t).1[i]?
        = some (if s = "" then zeroValue f.Kind else parsedValue host f.Kind s) := by
  rw [recordToValue_eq_decodeZip host ss t hlen] at hok ⊢
  intro i f s hf hs
  obtain ⟨x, hx, hget⟩ := decodeZip_ok host t ss hlen hok i f s hf hs
  rw [hget]
  by_cases hse : s = ""
  · simp only [decodeToken, hse, if_true, Except.ok.injEq] at hx
    simp [hse, hx]
  · simp only [decodeToken, hse, if_false] at hx
    have := setField_parsed host f s x (hk f (List.getElem?_mem hf)) hx
    simp [hse, this]

theorem readLoop_fails_after (host : Host) (t : StructType) (pre : List Row) (d0 : List Record)
    (hok : ∀ r ∈ pre, (recordToValue host r t).2 = none) :
    (∀ (r : Row) (e : GoError) (post : Reader), (recordToValue host r t).2 = some e →
      readLoop host t (pre.map .ok ++ .ok r :: post) true d0
        = (some e, d0 ++ pre.map (fun r => (recordToValue host r t).1))) ∧
    (∀ (msg : String) (post : Reader),
      readLoop host t (pre.map .ok ++ .error msg :: post) true d0
        = (some (.external msg), d0 ++ pre.map (fun r => (recordToValue host r t).1))) := by
  constructor
  · intro r e post he
    rw [ readLoop_prefix host t pre d0 _ hok]
    cases hrv : recordToValue host r t with
    | mk rv err =>
      rw [hrv] at he
      simp only at he
      subst he
      simp [readLoop, hrv]
  · intro msg post
    rw [ readLoop_prefix host t pre d0 _ hok]
    simp [readLoop]

/-- C17: for a destination that points to a slice `d0`, `ReadCSV` over a reader that
gives `io.EOF` at once, and over one that gives a header row and then `io.EOF`, returns
`nil` and leaves the slice equal to `d0`; these are the readers of a source without
records and of a source with one record. -/
theorem ReadCSV_exhausted (host : Host) (t : StructType) (d0 : List Record) :
    ReadCSV host [] (.ptrToSlice t d0) = .returned none (.ptrToSlice t d0) ∧
    (∀ header : Row,
      ReadCSV host [.ok header] (.ptrToSlice t d0) = .returned none (.ptrToSlice t d0)) ∧
    NewReader [] = [] ∧ ∀ header : Row, NewReader [header] = [.ok header] := by
  refine ⟨?_, ?_, rfl, ?_⟩
  · simp [ReadCSV, goIsNil, goKind, goElemKind, readLoop]
  · intro header
    simp [ReadCSV, goIsNil, goKind, goElemKind, readLoop]
  · intro header
    simp [NewReader, readRecords]

/-- C14: when the reader gives a header row, then rows `r1..r(j-1)` that decode, then a
row that `recordToValue` rejects or an error of the tokenizer, `ReadCSV` returns that
error and the slice afterwards is `d0` followed by the structs of `r1..r(j-1)`: what was
appended stays, `d0` is as it was, and nothing of the failing row or of what comes after
it is appended. -/
theorem ReadCSV_no_rollback (host : Host) (t : StructType) (d0 : List Record) (header : Row)
    (pre : List Row) (hok : ∀ r ∈ pre, (recordToValue host r t).2 = none) :
    (∀ (r : Row) (e : GoError) (post : Reader), (recordToValue host r t).2 = some e →
      ReadCSV host (.ok header :: (pre.map .ok ++ .ok r :: post)) (.ptrToSlice t d0)
        = .returned (some e)
            (.ptrToSlice t (d0 ++ pre.map (fun r => (recordToValue host r t).1)))) ∧
    (∀ (msg : String) (post : Reader),
      ReadCSV host (.ok header :: (pre.map .ok ++ .error msg :: post)) (.ptrToSlice t d0)
        = .returned (some (.external msg))
            (.ptrToSlice t (d0 ++ pre.map (fun r => (recordToValue host r t).1)))) := by
  obtain ⟨h1, h2⟩ := readLoop_fails_after host t pre d0 hok
  constructor
  · intro r e post he
    rw [ReadCSV_ptrToSlice, h1 r e post he]
  · intro msg post
    rw [ReadCSV_ptrToSlice, h2 msg post]

/-- Witness of C14: after one good row, a row with a bad integer, and after one good row
an error of the tokenizer; the destination held one element. -/
theorem ReadCSV_no_rollback_witness :
    ReadCSV plainHost [.ok ["A", "B"], .ok ["5", "x"], .ok ["oops", "y"], .ok ["6", "z"]]
        (.ptrToSlice [⟨"A", .Int, none⟩, ⟨"B", .String, none⟩] [[.int .Int 1, .string "old"]])
      = .returned (some (typeError .Int "A" "int" ⟨"ParseInt", "oops", .ErrSyntax⟩))
          (.ptrToSlice [⟨"A", .Int, none⟩, ⟨"B", .String, none⟩]
            [[.int .Int 1, .string "old"], [.int .Int 5, .string "x"]]) ∧
    ReadCSV plainHost [.ok ["A", "B"], .ok ["5", "x"], .error "bare quote", .ok ["6", "z"]]
        (.ptrToSlice [⟨"A", .Int, none⟩, ⟨"B", .String, none⟩] [[.int .Int 1, .string "old"]])
      = .returned (some (.external "bare quote"))
          (.ptrToSlice [⟨"A", .Int, none⟩, ⟨"B", .String, none⟩]
            [[.int .Int 1, .string "old"], [.int .Int 5, .string "x"]]) :=
  ⟨(ReadCSV_no_rollback plainHost [⟨"A", .Int, none⟩, ⟨"B", .String, none⟩] [[.int .Int 1, .string "old"]]
      ["A", "B"] [["5", "x"]] (by decide)).1 ["oops", "y"] _ [.ok ["6", "z"]] (by decide),
   (ReadCSV_no_rollback plainHost [⟨"A", .Int, none⟩, ⟨"B", .String, none⟩] [[.int .Int 1, .string "old"]]
      ["A", "B"] [["5", "x"]] (by decide)).2 "bare quote" [.ok ["6", "z"]]⟩

/-! ## The decoder: kinds without a rule, booleans, the exact failure condition -/

/-- The field at index `i` of the struct `decodeZip` gives is what `decodeToken` made of
its token, when that token and the ones before it decode, whatever comes after. -/
theorem decodeZip_get (host : Host) (t : StructType) :
    ∀ (ss : List String) (i : Nat) (f : Field) (s : String) (x : Value),
      ss.length = t.length → t[i]? = some f → ss[i]? = some s →
      decodeToken host f s = .ok x →
      (∀ (j : Nat) (f1 : Field) (s1 : String), j < i → t[j]? = some f1 → ss[j]? = some s1 →
        ∃ y, decodeToken host f1 s1 = .ok y) →
      (decodeZip host t ss).1[i]? = some x := by
  induction t with
  | nil => intro ss i f s x _ hf; simp at hf
  | cons f0 t ih =>
    intro ss i f s x h hf hs hx hbefore
    cases ss with
    | nil => simp at h
    | cons s0 ss =>
      have h1 : ss.length = t.length := by simpa using h
      cases i with
      | zero =>
        simp only [List.getElem?_cons_zero, Option.some.injEq] at hf hs
        subst hf hs
        unfold decodeToken at hx
        by_cases hse : s0 = ""
        · simp only [hse, if_true, Except.ok.injEq] at hx
          simp [decodeZip, hse, hx]
        · simp only [hse, if_false] at hx
          simp [decodeZip, hse, hx]
      | succ i =>
        simp only [List.getElem?_cons_succ] at hf hs
        have hrest := ih ss i f s x h1 hf hs hx
          (fun j f1 s1 hj hf1 hs1 => hbefore (j + 1) f1 s1 (by omega) (by simpa using hf1)
            (by simpa using hs1))
        obtain ⟨y, hy⟩ := hbefore 0 f0 s0 (by omega) (by simp) (by simp)
        unfold decodeToken at hy
        by_cases hse : s0 = ""
        · simpa [decodeZip, hse] using hrest
        · simp only [hse, if_false] at hy
          simpa [decodeZip, hse, hy] using hrest

/-- No error from `decodeZip` when every token decodes. -/
theorem decodeZip_none (host : Host) (t : StructType) (ss : List String)
    (hlen : ss.length = t.length)
    (hall : ∀ (j : Nat) (f1 : Field) (s1 : String), t[j]? = some f1 → ss[j]? = some s1 →
      ∃ y, decodeToken host f1 s1 = .ok y) :
    (decodeZip host t ss).2 = none := by
  cases h : (decodeZip host t ss).2 with
  | none => rfl
  | some e =>
    obtain ⟨i, f, s, hf, hs, he, _⟩ := (decodeZip_error host t ss e hlen).mp h
    obtain ⟨y, hy⟩ := hall i f s hf hs
    rw [hy] at he
    cases he

theorem ParseBool_true (s : String) (h : s ∈ trueTokens) : ParseBool s = (true, none) := by
  simp only [trueTokens, List.mem_cons, List.mem_singleton, List.not_mem_nil, or_false] at h
  simp only [ParseBool]
  rw [if_pos]
  rcases h with h | h | h | h | h | h <;> simp [h]

theorem ParseBool_false (s : String) (h : s ∈ falseTokens) : ParseBool s = (false, none) := by
  simp only [falseTokens, List.mem_cons, List.mem_singleton, List.not_mem_nil, or_false] at h
  rcases h with h | h | h | h | h | h <;> subst h <;> decide

theorem ParseBool_other (s : String) (h1 : s ∉ trueTokens) (h2 : s ∉ falseTokens) :
    ParseBool s = (false, some ⟨"ParseBool", s, .ErrSyntax⟩) := by
  simp only [trueTokens, falseTokens, List.mem_cons, List.mem_singleton, List.not_mem_nil,
    or_false] at h1 h2
  simp only [ParseBool]
  rw [if_neg (by tauto), if_neg (by tauto)]

/-- C11, the counterexample: the token `"tRuE"` in a boolean field is rejected, the
field stays `false` and the error is the one of `ParseBool`; so are `"fALSE"` and
`"tRUE"`. -/
theorem recordToValue_bool_mixed_case :
    recordToValue plainHost ["tRuE"] [⟨"B", .Bool, none⟩]
      = ([.bool false], some (typeError .Bool "B" "bool" ⟨"ParseBool", "tRuE", .ErrSyntax⟩)) ∧
    (recordToValue plainHost ["fALSE"] [⟨"B", .Bool, none⟩]).2
      = some (typeError .Bool "B" "bool" ⟨"ParseBool", "fALSE", .ErrSyntax⟩) ∧
    (recordToValue plainHost ["tRUE"] [⟨"B", .Bool, none⟩]).2
      = some (typeError .Bool "B" "bool" ⟨"ParseBool", "tRUE", .ErrSyntax⟩) := by
  decide

/-- C11 as amended: in a row of matching length, for a boolean field whose token is
not empty and whose earlier tokens decode, `recordToValue` sets the field to `true` for
the tokens `1`, `t`, `T`, `true`, `TRUE`, `True` and to `false` for `0`, `f`, `F`,
`false`, `FALSE`, `False`, with no error when the later tokens decode too; for every
other token it returns the type error of the field with the `NumError` of `ParseBool`. -/
theorem recordToValue_bool_tokens (host : Host) (t : StructType) (ss : Row) (i : Nat)
    (f : Field) (s : String) (hlen : ss.length = t.length) (hf : t[i]? = some f)
    (hs : ss[i]? = some s) (hk : f.Kind = .Bool) (hne : s ≠ "")
    (hbefore : ∀ (j : Nat) (f1 : Field) (s1 : String), j < i → t[j]? = some f1 →
      ss[j]? = some s1 → ∃ x, decodeToken host f1 s1 = .ok x) :
    (∀ b : Bool, (b = true ∧ s ∈ trueTokens) ∨ (b = false ∧ s ∈ falseTokens) →
      (recordToValue host ss t).1[i]? = some (.bool b) ∧
      ((∀ (j : Nat) (f1 : Field) (s1 : String), i < j → t[j]? = some f1 → ss[j]? = some s1 →
          ∃ x, decodeToken host f1 s1 = .ok x) →
        (recordToValue host ss t).2 = none)) ∧
    (s ∉ trueTokens → s ∉ falseTokens →
      (recordToValue host ss t).2
        = some (typeError .Bool f.Name "bool" ⟨"ParseBool", s, .ErrSyntax⟩)) := by
  rcases f with ⟨name, k, dt⟩
  simp only at hk
  subst hk
  rw [recordToValue_eq_decodeZip host ss t hlen]
  constructor
  · intro b hb
    have hp : ParseBool s = (b, none) := by
      rcases hb with ⟨rfl, h⟩ | ⟨rfl, h⟩
      · exact ParseBool_true s h
      · exact ParseBool_false s h
    have hx : decodeToken host ⟨name, .Bool, dt⟩ s = .ok (.bool b) := by
      simp [decodeToken, hne, setField, hp]
    refine ⟨decodeZip_get host t ss i _ s _ hlen hf hs hx hbefore, ?_⟩
    intro hafter
    apply decodeZip_none host t ss hlen
    intro j f1 s1 hf1 hs1
    rcases Nat.lt_trichotomy j i with hj | hj | hj
    · exact hbefore j f1 s1 hj hf1 hs1
    · subst hj
      rw [hf] at hf1
      rw [hs] at hs1
      simp only [Option.some.injEq] at hf1 hs1
      subst hf1 hs1
      exact ⟨_, hx⟩
    · exact hafter j f1 s1 hj hf1 hs1
  · intro h1 h2
    refine (decodeZip_error host t ss _ hlen).mpr ⟨i, _, s, hf, hs, ?_, hbefore⟩
    simp [decodeToken, hne, setField, ParseBool_other s h1 h2, typeError]

/-- Witness of C11 as amended: the token `"T"` in a boolean field after an integer
field. -/
theorem recordToValue_bool_tokens_witness :
    ("T" ∈ trueTokens) ∧
    (recordToValue plainHost ["23", "T"] [⟨"Age", .Int, none⟩, ⟨"Ok", .Bool, none⟩]).1[1]?
      = some (.bool true) :=
  ⟨by decide,
   ((recordToValue_bool_tokens plainHost [⟨"Age", .Int, none⟩, ⟨"Ok", .Bool, none⟩] ["23", "T"]
     1 ⟨"Ok", .Bool, none⟩ "T" (by decide) (by decide) (by decide) (by decide) (by decide)
     (by
       intro j f1 s1 hj h1 h2
       have hj0 : j = 0 := by omega
       subst hj0
       simp only [List.getElem?_cons_zero, Option.some.injEq] at h1 h2
       subst h1 h2
       exact ⟨.int .Int 23, by rfl⟩)).1 true (Or.inl ⟨rfl, by decide⟩)).1⟩

/-! ## The destination and the header -/

/-- C13, the code at the failing inputs: for the untyped nil and for a struct or an
integer passed by value, `ReadCSV` does not return: `reflect.Value.IsNil`, called before
the kind is looked at, panics. -/
theorem ReadCSV_panics_on_non_pointer (host : Host) (cr : Reader) :
    ReadCSV host cr .untypedNil = .panicked ∧
    ReadCSV host cr (.val .Struct) = .panicked ∧
    ReadCSV host cr (.val .Int) = .panicked := by
  refine ⟨?_, ?_, ?_⟩ <;> simp [ReadCSV, goIsNil, goKind]

/-- The part of C13 that holds: for an argument on which `IsNil` does not panic and which
is nil, or is not a pointer, or points to something else than a slice, `ReadCSV` returns
an InvalidDestination error whatever the reader holds, and the argument is as it was. -/
theorem ReadCSV_invalid_destination (host : Host) (dest : GoValue)
    (h : goIsNil dest = some true ∨
      (goIsNil dest = some false ∧ (goKind dest ≠ .Ptr ∨ goElemKind dest ≠ .Slice))) :
    ∃ e, IsInvalidDestination e ∧ ∀ cr : Reader, ReadCSV host cr dest = .returned (some e) dest := by
  rcases h with h | ⟨h, hk⟩
  · exact ⟨_, Or.inl ⟨dest, rfl⟩, fun cr => by simp [ReadCSV, h]⟩
  · exact ⟨_, Or.inr ⟨goKind dest, rfl⟩, fun cr => by simp [ReadCSV, h, hk]⟩

theorem ReadCSV_header_any (host : Host) (h1 h2 : Row) (cr : Reader) (dest : GoValue) :
    ReadCSV host (.ok h1 :: cr) dest = ReadCSV host (.ok h2 :: cr) dest := by
  cases dest <;> simp [ReadCSV, readLoop]

theorem NewReader_cons (header : Row) (data : List Row) :
    NewReader (header :: data) = .ok header :: readRecords header.length data := by
  simp [NewReader, readRecords]

/-- C15, the counterexample: over the same data row `1,x` and the same destination, the
header `A,B` lets `ReadCSV` return `nil` with one struct appended, and the header `A`
makes the reader report the data row as having the wrong number of fields, which
`ReadCSV` returns with nothing appended. -/
theorem ReadCSV_header_count_matters :
    ReadCSV plainHost (NewReader [["A", "B"], ["1", "x"]])
        (.ptrToSlice [⟨"A", .Int, none⟩, ⟨"B", .String, none⟩] [])
      = .returned none (.ptrToSlice [⟨"A", .Int, none⟩, ⟨"B", .String, none⟩] [[.int .Int 1, .string "x"]]) ∧
    ReadCSV plainHost (NewReader [["A"], ["1", "x"]])
        (.ptrToSlice [⟨"A", .Int, none⟩, ⟨"B", .String, none⟩] [])
      = .returned (some (.external "wrong number of fields"))
          (.ptrToSlice [⟨"A", .Int, none⟩, ⟨"B", .String, none⟩] []) ∧
    ReadCSV plainHost (NewReader [["A", "B"], ["1", "x"]])
        (.ptrToSlice [⟨"A", .Int, none⟩, ⟨"B", .String, none⟩] [])
      ≠ ReadCSV plainHost (NewReader [["A"], ["1", "x"]])
        (.ptrToSlice [⟨"A", .Int, none⟩, ⟨"B", .String, none⟩] []) := by
  decide

/-- C15 as amended: for two header rows with the same number of tokens, of any content,
`ReadCSV` over a source that holds the first and then the data rows and over a source
that holds the second and then the same data rows gives the same outcome, error and
destination alike; and whatever header row the reader gives first, what `ReadCSV` does
with the results that follow does not depend on it. -/
theorem ReadCSV_header_content_ignored (host : Host) (h1 h2 : Row) (data : List Row)
    (dest : GoValue) (hlen : h1.length = h2.length) :
    ReadCSV host (NewReader (h1 :: data)) dest = ReadCSV host (NewReader (h2 :: data)) dest ∧
    ∀ (g1 g2 : Row) (cr : Reader),
      ReadCSV host (.ok g1 :: cr) dest = ReadCSV host (.ok g2 :: cr) dest := by
  refine ⟨?_, fun g1 g2 cr => ReadCSV_header_any host g1 g2 cr dest⟩
  rw [NewReader_cons, NewReader_cons, hlen]
  exact ReadCSV_header_any host h1 h2 _ dest

/-- Witness of C15 as amended: the headers `A,B` and `x,y` over one data row. -/
theorem ReadCSV_header_content_ignored_witness :
    (["A", "B"] : Row).length = (["x", "y"] : Row).length ∧
    ReadCSV plainHost (NewReader [["A", "B"], ["1", "x"]])
        (.ptrToSlice [⟨"A", .Int, none⟩, ⟨"B", .String, none⟩] [])
      = ReadCSV plainHost (NewReader [["x", "y"], ["1", "x"]])
        (.ptrToSlice [⟨"A", .Int, none⟩, ⟨"B", .String, none⟩] []) :=
  ⟨by decide,
   (ReadCSV_header_content_ignored plainHost ["A", "B"] ["x", "y"] [["1", "x"]]
      (.ptrToSlice [⟨"A", .Int, none⟩, ⟨"B", .String, none⟩] []) (by decide)).1⟩

/-! ## The exact failure condition -/

/-- The switch returns an error exactly for the tokens that `tokenRejected` describes. -/
theorem setField_rejected (host : Host) (f : Field) (s : String) :
    (∃ e, setField host f s = .error e) ↔ tokenRejected host f.Kind s = true := by
  rcases f with ⟨name, k, dt⟩
  cases k <;> simp only [setField, tokenRejected] <;> (try split) <;> simp_all

theorem decodeToken_ok_iff (host : Host) (f : Field) (s : String) :
    (∃ x, decodeToken host f s = .ok x) ↔ (s = "" ∨ tokenRejected host f.Kind s = false) := by
  unfold decodeToken
  by_cases hs : s = ""
  · simp [hs]
  · simp only [hs, if_false, false_or]
    have h := setField_rejected host f s
    cases hsf : setField host f s with
    | ok x =>
      rw [hsf] at h
      simp only [reduceCtorEq, exists_false, false_iff, Bool.not_eq_true] at h
      simp [h]
    | error e =>
      rw [hsf] at h
      have h1 : tokenRejected host f.Kind s = true := h.mp ⟨e, rfl⟩
      simp [h1]

/-- C18: `recordToValue` returns an error exactly when the token count differs from the
field count or some position holds a non-empty token that its field rejects (the kind
has no rule, or the parser of the kind fails on the token); and in a row of matching
length the error returned is the one of the switch at the first such position. -/
theorem recordToValue_fails_iff (host : Host) (t : StructType) (ss : Row) :
    ((recordToValue host ss t).2 ≠ none ↔
      (ss.length ≠ t.length ∨
        ∃ (i : Nat) (f : Field) (s : String), t[i]? = some f ∧ ss[i]? = some s ∧ s ≠ "" ∧
          tokenRejected host f.Kind s = true)) ∧
    (ss.length = t.length → ∀ e, (recordToValue host ss t).2 = some e →
      ∃ (i : Nat) (f : Field) (s : String), t[i]? = some f ∧ ss[i]? = some s ∧ s ≠ "" ∧
        tokenRejected host f.Kind s = true ∧ setField host f s = .error e ∧
        ∀ (j : Nat) (f1 : Field) (s1 : String), j < i → t[j]? = some f1 → ss[j]? = some s1 →
          s1 = "" ∨ tokenRejected host f1.Kind s1 = false) := by
  have hfirst : ss.length = t.length → ∀ e, (recordToValue host ss t).2 = some e →
      ∃ (i : Nat) (f : Field) (s : String), t[i]? = some f ∧ ss[i]? = some s ∧ s ≠ "" ∧
        tokenRejected host f.Kind s = true ∧ setField host f s = .error e ∧
        ∀ (j : Nat) (f1 : Field) (s1 : String), j < i → t[j]? = some f1 → ss[j]? = some s1 →
          s1 = "" ∨ tokenRejected host f1.Kind s1 = false := by
    intro hlen e he
    rw [recordToValue_eq_decodeZip host ss t hlen] at he
    obtain ⟨i, f, s, hf, hs, hd, hbefore⟩ := (decodeZip_error host t ss e hlen).mp he
    obtain ⟨hne, hsf⟩ := decodeToken_error host f s e hd
    refine ⟨i, f, s, hf, hs, hne, (setField_rejected host f s).mp ⟨e, hsf⟩, hsf, ?_⟩
    intro j f1 s1 hj hf1 hs1
    exact (decodeToken_ok_iff host f1 s1).mp (hbefore j f1 s1 hj hf1 hs1)
  refine ⟨?_, hfirst⟩
  by_cases hlen : ss.length = t.length
  · constructor
    · intro hne
      cases he : (recordToValue host ss t).2 with
      | none => exact absurd he hne
      | some e =>
        obtain ⟨i, f, s, hf, hs, h1, h2, _⟩ := hfirst hlen e he
        exact Or.inr ⟨i, f, s, hf, hs, h1, h2⟩
    · intro h hnone
      rcases h with h | ⟨i, f, s, hf, hs, h1, h2⟩
      · exact h hlen
      · rw [recordToValue_eq_decodeZip host ss t hlen] at hnone
        obtain ⟨x, hx, _⟩ := decodeZip_ok host t ss hlen hnone i f s hf hs
        rcases (decodeToken_ok_iff host f s).mp ⟨x, hx⟩ with h3 | h3
        · exact h1 h3
        · rw [h2] at h3
          cases h3
  · constructor
    · intro _
      exact Or.inl hlen
    · intro _
      simp [recordToValue, hlen]

/-! ## What `writeRow` writes, and reading it back -/

theorem formatField_int (host : Host) (f : Field) (k : Kind) (n : Int)
    (hp : hasPrinter f = false) : formatField host f (.int k n) = fmtInteger n := by
  rcases f with ⟨name, kd, dt⟩
  cases dt with
  | none => cases k <;> rfl
  | some d =>
    rcases d with ⟨tn, pr⟩
    simp only [hasPrinter] at hp
    subst hp
    simp [formatField, sprintV]

theorem formatField_string (host : Host) (f : Field) (s : String)
    (hp : hasPrinter f = false) : formatField host f (.string s) = s := by
  rcases f with ⟨name, kd, dt⟩
  cases dt with
  | none => rfl
  | some d =>
    rcases d with ⟨tn, pr⟩
    simp only [hasPrinter] at hp
    subst hp
    simp [formatField, sprintV]

theorem formatField_bool (host : Host) (f : Field) (b : Bool)
    (hp : hasPrinter f = false) :
    formatField host f (.bool b) = if b then "true" else "false" := by
  rcases f with ⟨name, kd, dt⟩
  cases dt with
  | none => rfl
  | some d =>
    rcases d with ⟨tn, pr⟩
    simp only [hasPrinter] at hp
    subst hp
    simp [formatField, sprintV]

theorem formatField_printer (host : Host) (f : Field) (tn : String) (x : Value)
    (hd : f.Defined = some ⟨tn, true⟩) :
    formatField host f x = host.sprintfMethod tn x := by
  rcases f with ⟨name, kd, dt⟩
  simp only at hd
  subst hd
  simp [formatField, sprintV]

theorem fmtInteger_ne_empty (n : Int) : fmtInteger n ≠ "" := by
  obtain ⟨ds, hdata, hne, _⟩ := fmtInteger_canonical n
  intro h
  rw [h] at hdata
  have : ((if n < 0 then ['-'] else []) ++ ds) = [] := hdata.symm
  simp only [List.append_eq_nil] at this
  exact hne this.2

theorem wrapInt_of_fits (k : Kind) (n : Int) (hk : isIntKind k = true)
    (h1 : -(2 : Int) ^ (intBits k - 1) ≤ n) (h2 : n < (2 : Int) ^ (intBits k - 1)) :
    wrapInt (intBits k) n = n ∧ -9223372036854775808 ≤ n ∧ n < 9223372036854775808 := by
  cases k <;> simp [isIntKind] at hk <;> simp only [intBits] at h1 h2 ⊢ <;>
    norm_num at h1 h2 <;> unfold wrapInt <;> norm_num <;> omega

/-- The token `writeRow` makes of a string, integer or boolean value decodes to that
value, when the type of the field has no method that `%v` prints through. -/
theorem decodeToken_formatField (host : Host) (f : Field) (v : Value)
    (hk : f.Kind = .String ∨ isIntKind f.Kind = true ∨ f.Kind = .Bool)
    (hp : hasPrinter f = false) (hv : Value.FitsKind f.Kind v) :
    decodeToken host f (formatField host f v) = .ok v := by
  cases v with
  | bool b =>
    simp only [Value.FitsKind] at hv
    rw [formatField_bool host f b hp]
    rcases f with ⟨name, k, dt⟩
    simp only at hv
    subst hv
    cases b
    · have : ParseBool "false" = (false, none) := by decide
      simp [decodeToken, setField, this]
    · have : ParseBool "true" = (true, none) := by decide
      simp [decodeToken, setField, this]
  | float64 x =>
    simp only [Value.FitsKind] at hv
    rw [hv] at hk
    simp [isIntKind] at hk
  | other k p =>
    simp only [Value.FitsKind] at hv
    rcases hk with hk | hk | hk
    · exact absurd hk hv.2.2.2.2
    · rw [hv.2.1] at hk
      cases hk
    · exact absurd hk hv.2.2.1
  | string s =>
    simp only [Value.FitsKind] at hv
    rw [formatField_string host f s hp]
    by_cases hs : s = ""
    · simp [decodeToken, hs, hv, zeroValue]
    · simp [decodeToken, hs, setField, hv]
  | int k n =>
    simp only [Value.FitsKind] at hv
    obtain ⟨hkk, hint, h1, h2⟩ := hv
    obtain ⟨hw, h3, h4⟩ := wrapInt_of_fits f.Kind n hint h1 h2
    rw [formatField_int host f k n hp]
    simp only [decodeToken, fmtInteger_ne_empty, if_false]
    rw [setField_int host f _ hint, ParseInt_fmtInteger n h3 h4]
    simp [hw, hkk]

theorem decodeZip_formatField (host : Host) (t : StructType) (r : Record)
    (hk : ∀ f ∈ t, (f.Kind = .String ∨ isIntKind f.Kind = true ∨ f.Kind = .Bool) ∧
      hasPrinter f = false)
    (hr : Conforms t r) :
    decodeZip host t (List.zipWith (formatField host) t r) = (r, none) := by
  unfold Conforms at hr
  induction hr with
  | nil => simp [decodeZip]
  | @cons f v t r hv _ ih =>
    have hf := hk f (by simp)
    have h1 := decodeToken_formatField host f v hf.1 hf.2 hv
    have h2 := ih (fun f1 hf1 => hk f1 (by simp [hf1]))
    simp only [List.zipWith_cons_cons, decodeZip, h2]
    by_cases he : formatField host f v = ""
    · simp only [decodeToken, he, if_true, Except.ok.injEq] at h1
      simp [he, h1]
    · simp only [decodeToken, he, if_false] at h1
      simp [he, h1]

theorem recordToValue_buildRow (host : Host) (t : StructType) (r : Record)
    (hk : ∀ f ∈ t, (f.Kind = .String ∨ isIntKind f.Kind = true ∨ f.Kind = .Bool) ∧
      hasPrinter f = false)
    (hr : Conforms t r) :
    recordToValue host (buildRow host ⟨t, r⟩) t = (r, none) := by
  have hlen : r.length = t.length := (List.Forall₂.length_eq hr).symm
  rw [buildRow_eq host t r hlen,
    recordToValue_eq_decodeZip host _ t (by simp [List.length_zipWith, hlen])]
  exact decodeZip_formatField host t r hk hr

theorem not_canonical_level : ¬ IsCanonicalDecimal "level-2" 2 := by
  intro h
  have := (canonical_literal "level-2" 2 h).1
  exact absurd this (by decide)

/-- C7, the counterexample: for a field `L` of the defined type `Level`, of kind `int`
and with a `String` method, and the value 2, `writeRow` writes the token `"level-2"`,
which is not the decimal numeral of 2. -/
theorem writeRow_defined_type_token :
    buildRow plainHost ⟨[⟨"L", .Int, some ⟨"Level", true⟩⟩], [.int .Int 2]⟩ = ["level-2"] ∧
    ¬ IsCanonicalDecimal "level-2" 2 :=
  ⟨by decide, not_canonical_level⟩

/-- C7 as amended: for a struct value with one value per field of its type, `writeRow`
hands the writer, with no error of its own, a row of exactly as many tokens as there are
fields, in declaration order. Where the type of the field has no `Format`, `Error` or
`String` method, the token of a string value is the string itself and the token of an
integer value `n` (of any signed integer kind) is the canonical decimal numeral of `n`:
digits only, no leading zero except in `"0"`, a `'-'` in front exactly when `n < 0` and
never a `'+'`. Where the type has such a method, the token is what the method prints. -/
theorem writeRow_tokens (host : Host) (w : Writer) (d : Struct)
    (hd : d.fields.length = d.typ.length) :
    writeRow host w d = w.Write (buildRow host d) ∧
    (buildRow host d).length = d.typ.length ∧
    (∀ i : Nat, i < d.typ.length → ∃ (f : Field) (x : Value), d.typ[i]? = some f ∧
      d.fields[i]? = some x ∧ (buildRow host d)[i]? = some (formatField host f x)) ∧
    (∀ (i : Nat) (f : Field) (s : String), d.typ[i]? = some f → hasPrinter f = false →
      d.fields[i]? = some (.string s) → (buildRow host d)[i]? = some s) ∧
    (∀ (i : Nat) (f : Field) (k : Kind) (n : Int), d.typ[i]? = some f →
      hasPrinter f = false → d.fields[i]? = some (.int k n) →
      ∃ tok, (buildRow host d)[i]? = some tok ∧ IsCanonicalDecimal tok n) ∧
    (∀ (i : Nat) (f : Field) (tn : String) (x : Value), d.typ[i]? = some f →
      f.Defined = some ⟨tn, true⟩ → d.fields[i]? = some x →
      (buildRow host d)[i]? = some (host.sprintfMethod tn x)) := by
  refine ⟨rfl, by simp [buildRow, Struct.NumField], ?_, ?_, ?_, ?_⟩
  · intro i hi
    have hi2 : i < d.fields.length := by omega
    exact ⟨d.typ[i], d.fields[i], List.getElem?_eq_getElem hi, List.getElem?_eq_getElem hi2,
      buildRow_getElem? host d i _ _ (List.getElem?_eq_getElem hi)
        (List.getElem?_eq_getElem hi2)⟩
  · intro i f s hf hp hx
    rw [buildRow_getElem? host d i f _ hf hx, formatField_string host f s hp]
  · intro i f k n hf hp hx
    refine ⟨fmtInteger n, ?_, fmtInteger_canonical n⟩
    rw [buildRow_getElem? host d i f _ hf hx, formatField_int host f k n hp]
  · intro i f tn x hf hdef hx
    rw [buildRow_getElem? host d i f _ hf hx, formatField_printer host f tn x hdef]

/-- Witness of C7 as amended, on the struct of the test `TestWriteRow` without its float
field and with a field of the defined type `Level`. -/
theorem writeRow_tokens_witness :
    (([.string "Matt", .string "Palmer", .int .Int 23, .int .Int 2] : Record).length
      = ([⟨"FName", .String, none⟩, ⟨"LName", .String, none⟩, ⟨"Age", .Int, none⟩,
          ⟨"L", .Int, some ⟨"Level", true⟩⟩] : StructType).length) ∧
    (writeRow plainHost ⟨[], [], false⟩
      ⟨[⟨"FName", .String, none⟩, ⟨"LName", .String, none⟩, ⟨"Age", .Int, none⟩,
        ⟨"L", .Int, some ⟨"Level", true⟩⟩],
       [.string "Matt", .string "Palmer", .int .Int 23, .int .Int 2]⟩).1.rows
      = [["Matt", "Palmer", "23", "level-2"]] ∧
    (buildRow plainHost
      ⟨[⟨"FName", .String, none⟩, ⟨"LName", .String, none⟩, ⟨"Age", .Int, none⟩,
        ⟨"L", .Int, some ⟨"Level", true⟩⟩],
       [.string "Matt", .string "Palmer", .int .Int 23, .int .Int 2]⟩).length = 4 :=
  ⟨by decide, by decide,
   (writeRow_tokens plainHost ⟨[], [], false⟩
      ⟨[⟨"FName", .String, none⟩, ⟨"LName", .String, none⟩, ⟨"Age", .Int, none⟩,
        ⟨"L", .Int, some ⟨"Level", true⟩⟩],
       [.string "Matt", .string "Palmer", .int .Int 23, .int .Int 2]⟩ (by decide)).2.1⟩

/-- C19, the counterexample: the struct with the one field `L` of the defined type
`Level` (kind `int`, with a `String` method) and the value 2 is a value of its type, the
row `writeRow` builds for it is `level-2`, and `recordToValue` on that row returns the
type error of `ParseInt` and leaves the field at 0. -/
theorem recordToValue_buildRow_defined_type :
    Conforms [⟨"L", .Int, some ⟨"Level", true⟩⟩] [.int .Int 2] ∧
    buildRow plainHost ⟨[⟨"L", .Int, some ⟨"Level", true⟩⟩], [.int .Int 2]⟩ = ["level-2"] ∧
    recordToValue plainHost
        (buildRow plainHost ⟨[⟨"L", .Int, some ⟨"Level", true⟩⟩], [.int .Int 2]⟩)
        [⟨"L", .Int, some ⟨"Level", true⟩⟩]
      = ([.int .Int 0],
          some (typeError .Int "L" "int" ⟨"ParseInt", "level-2", .ErrSyntax⟩)) :=
  ⟨by simp [Conforms, Value.FitsKind, isIntKind, intBits], by decide, by decide⟩

/-- C19 as amended: for a struct value whose fields are of string, signed-integer or
boolean kind and of types without a `Format`, `Error` or `String` method,
`recordToValue` on the row that `writeRow` builds for it returns no error and a struct
equal to it; the token `writeRow` makes of a boolean of such a type is `"true"` or
`"false"`, which `ParseBool` takes back to the same boolean. -/
theorem recordToValue_buildRow_bool (host : Host) (t : StructType) (r : Record)
    (hk : ∀ f ∈ t, (f.Kind = .String ∨ isIntKind f.Kind = true ∨ f.Kind = .Bool) ∧
      hasPrinter f = false)
    (hr : Conforms t r) :
    (writeRow host ⟨[], [], false⟩ ⟨t, r⟩).1.rows = [buildRow host ⟨t, r⟩] ∧
    recordToValue host (buildRow host ⟨t, r⟩) t = (r, none) ∧
    ∀ (f : Field) (b : Bool), hasPrinter f = false →
      formatField host f (.bool b) = (if b then "true" else "false") ∧
      ParseBool (formatField host f (.bool b)) = (b, none) := by
  refine ⟨by simp [writeRow, Writer.Write], recordToValue_buildRow host t r hk hr, ?_⟩
  intro f b hp
  rw [formatField_bool host f b hp]
  cases b
  · exact ⟨rfl, show ParseBool "false" = (false, none) by decide⟩
  · exact ⟨rfl, show ParseBool "true" = (true, none) by decide⟩

/-- Witness of C19 as amended: a string, a negative integer, the two booleans, and an
integer of a defined type without a method. -/
theorem recordToValue_buildRow_bool_witness :
    recordToValue plainHost
        (buildRow plainHost
          ⟨[⟨"N", .String, none⟩, ⟨"A", .Int, none⟩, ⟨"X", .Bool, none⟩, ⟨"Y", .Bool, none⟩,
            ⟨"Z", .Int, some ⟨"Age", false⟩⟩],
           [.string "Matt", .int .Int (-23), .bool true, .bool false, .int .Int 7]⟩)
        [⟨"N", .String, none⟩, ⟨"A", .Int, none⟩, ⟨"X", .Bool, none⟩, ⟨"Y", .Bool, none⟩,
          ⟨"Z", .Int, some ⟨"Age", false⟩⟩]
      = ([.string "Matt", .int .Int (-23), .bool true, .bool false, .int .Int 7], none) :=
  (recordToValue_buildRow_bool plainHost
    [⟨"N", .String, none⟩, ⟨"A", .Int, none⟩, ⟨"X", .Bool, none⟩, ⟨"Y", .Bool, none⟩,
      ⟨"Z", .Int, some ⟨"Age", false⟩⟩]
    [.string "Matt", .int .Int (-23), .bool true, .bool false, .int .Int 7] (by decide)
    (by simp [Conforms, Value.FitsKind, isIntKind, intBits])).2.1

/-! ## Through the reader that `ReadCSV` makes -/

theorem decodes_length (host : Host) (t : StructType) (r : Row)
    (h : (recordToValue host r t).2 = none) : r.length = t.length := by
  by_contra hne
  simp [recordToValue, hne] at h

theorem readRecords_same_length (n : Nat) (rows : List Row) (h : ∀ r ∈ rows, r.length = n) :
    readRecords n rows = rows.map .ok := by
  induction rows with
  | nil => simp [readRecords]
  | cons r rest ih =>
    have hr : r.length = n := h r (by simp)
    have hrest := ih (fun r1 h1 => h r1 (by simp [h1]))
    by_cases hn : n > 0
    · simp [readRecords, hn, hr, hrest]
    · have h0 : n = 0 := by omega
      subst h0
      simp only [readRecords, gt_iff_lt, lt_self_iff_false, if_false, hr, List.map_cons,
        List.cons.injEq, true_and]
      exact hrest

/-- Whatever field count the reader holds, it gives `ReadCSV` an error at or before a
row of the wrong length that comes after rows that decode: its own field-count error,
or the row itself, which `recordToValue` rejects. -/
theorem readLoop_readRecords_mismatch (host : Host) (t : StructType) (ss : Row)
    (post : List Row) (hlen : ss.length ≠ t.length) (pre : List Row) :
    ∀ (n : Nat) (d : List Record), (∀ r ∈ pre, (recordToValue host r t).2 = none) →
      ∃ (e : GoError) (m : Nat),
        (e = csvError "recordToValue: can't decode CSV record to struct (field mismatch)" [] ∨
          e = .external "wrong number of fields") ∧ m ≤ pre.length ∧
        readLoop host t (readRecords n (pre ++ ss :: post)) true d
          = (some e, d ++ (pre.take m).map (fun r => (recordToValue host r t).1)) := by
  have hss : recordToValue host ss t
      = (newRecord t,
          some (csvError "recordToValue: can't decode CSV record to struct (field mismatch)" [])) := by
    simp [recordToValue, hlen]
  induction pre with
  | nil =>
    intro n d _
    by_cases hn : n > 0
    · by_cases hl : ss.length ≠ n
      · exact ⟨_, 0, Or.inr rfl, by simp, by simp [readRecords, hn, hl, readLoop]⟩
      · exact ⟨_, 0, Or.inl rfl, by simp, by simp [readRecords, hn, hl, readLoop, hss]⟩
    · exact ⟨_, 0, Or.inl rfl, by simp, by simp [readRecords, hn, readLoop, hss]⟩
  | cons r pre ih =>
    intro n d hok
    have hr := hok r (by simp)
    have hpre : ∀ r1 ∈ pre, (recordToValue host r1 t).2 = none :=
      fun r1 h1 => hok r1 (by simp [h1])
    have hstep : ∀ n1 : Nat, ∃ (e : GoError) (m : Nat),
        (e = csvError "recordToValue: can't decode CSV record to struct (field mismatch)" [] ∨
          e = .external "wrong number of fields") ∧ m ≤ (r :: pre).length ∧
        readLoop host t (.ok r :: readRecords n1 (pre ++ ss :: post)) true d
          = (some e, d ++ ((r :: pre).take m).map (fun r => (recordToValue host r t).1)) := by
      intro n1
      obtain ⟨e, m, he, hm, hrun⟩ := ih n1 (d ++ [(recordToValue host r t).1]) hpre
      refine ⟨e, m + 1, he, by simp [hm], ?_⟩
      cases hrv : recordToValue host r t with
      | mk rv err =>
        rw [hrv] at hr hrun
        simp only at hr
        subst hr
        simp only [readLoop, Bool.not_true, Bool.false_eq_true, if_false, hrv, hrun,
          List.take_succ_cons, List.map_cons, List.append_assoc, List.singleton_append]
    by_cases hn : n > 0
    · by_cases hl : r.length ≠ n
      · exact ⟨_, 0, Or.inr rfl, by simp, by simp [readRecords, hn, hl, readLoop]⟩
      · have := hstep n
        simpa [readRecords, hn, hl] using this
    · have := hstep r.length
      simpa [readRecords, hn] using this

/-- C2, the counterexample: the row `1,x` decodes for the struct type of an `int` and a
`string` field, yet after the header `A` the reader that `ReadCSV` makes reports it as
having the wrong number of fields, and `ReadCSV` returns that error and appends
nothing. -/
theorem ReadCSV_header_of_other_length :
    (recordToValue plainHost ["1", "x"] [⟨"A", .Int, none⟩, ⟨"B", .String, none⟩]).2 = none ∧
    ReadCSV plainHost (NewReader [["A"], ["1", "x"]])
        (.ptrToSlice [⟨"A", .Int, none⟩, ⟨"B", .String, none⟩] [])
      = .returned (some (.external "wrong number of fields"))
          (.ptrToSlice [⟨"A", .Int, none⟩, ⟨"B", .String, none⟩] []) := by
  decide

/-- C2 as amended: for a source that holds one header row and then `N` data rows that
each decode, the header with as many tokens as the struct type has fields unless `N` is
0, and a destination pointing to a slice `d0`, `ReadCSV` returns `nil` and the slice
afterwards is `d0` followed by the decoded rows in the order read: `N` elements appended,
none for the header. -/
theorem ReadCSV_appends (host : Host) (t : StructType) (d0 : List Record) (header : Row)
    (rows : List Row) (hok : ∀ r ∈ rows, (recordToValue host r t).2 = none)
    (hh : rows = [] ∨ header.length = t.length) :
    ReadCSV host (NewReader (header :: rows)) (.ptrToSlice t d0)
      = .returned none
          (.ptrToSlice t (d0 ++ rows.map (fun r => (recordToValue host r t).1))) := by
  have hrows : readRecords header.length rows = rows.map .ok := by
    rcases hh with hh | hh
    · subst hh
      simp [readRecords]
    · apply readRecords_same_length
      intro r hr
      rw [decodes_length host t r (hok r hr), hh]
  rw [NewReader_cons, hrows, ReadCSV_ptrToSlice]
  have := readLoop_prefix host t rows d0 [] hok
  simp only [List.append_nil] at this
  rw [this]
  simp [readLoop]

/-- Witness of C2 as amended: a header that names other columns, two data rows, a
destination that already holds one element. -/
theorem ReadCSV_appends_witness :
    ReadCSV plainHost (NewReader [["x", "y"], ["1", "a"], ["", "b"]])
        (.ptrToSlice [⟨"A", .Int, none⟩, ⟨"B", .String, none⟩] [[.int .Int 7, .string "old"]])
      = .returned none (.ptrToSlice [⟨"A", .Int, none⟩, ⟨"B", .String, none⟩]
          [[.int .Int 7, .string "old"], [.int .Int 1, .string "a"], [.int .Int 0, .string "b"]]) :=
  ReadCSV_appends plainHost [⟨"A", .Int, none⟩, ⟨"B", .String, none⟩]
    [[.int .Int 7, .string "old"]] ["x", "y"] [["1", "a"], ["", "b"]] (by decide)
    (Or.inr (by decide))

/-- C5, the counterexample: after the header `A,B` and the good row `5,x`, the row `1`
of one token never reaches `recordToValue`: the reader reports it as having the wrong
number of fields, and that error, not the field-mismatch error of `recordToValue`, is
what `ReadCSV` returns. -/
theorem ReadCSV_short_row_reader_error :
    ReadCSV plainHost (NewReader [["A", "B"], ["5", "x"], ["1"], ["6", "y"]])
        (.ptrToSlice [⟨"A", .Int, none⟩, ⟨"B", .String, none⟩] [])
      = .returned (some (.external "wrong number of fields"))
          (.ptrToSlice [⟨"A", .Int, none⟩, ⟨"B", .String, none⟩] [[.int .Int 5, .string "x"]]) ∧
    (recordToValue plainHost ["1"] [⟨"A", .Int, none⟩, ⟨"B", .String, none⟩]).2
      = some (csvError "recordToValue: can't decode CSV record to struct (field mismatch)" []) ∧
    GoError.external "wrong number of fields"
      ≠ csvError "recordToValue: can't decode CSV record to struct (field mismatch)" [] := by
  decide

/-- C5 as amended: a row whose token count differs from the field count makes
`recordToValue` return the field-mismatch error, whatever the tokens, together with the
struct as `reflect.New` made it. When the source holds that row after a header and data
rows that decode, `ReadCSV` returns an error and appends nothing for that row or for a
later one: the field-mismatch error when the row is the first data row and the header has
as many tokens as it, and the field-count error of the reader, with the rows before it
appended, when the header has as many tokens as the type has fields. -/
theorem recordToValue_field_mismatch (host : Host) (t : StructType) (ss : Row)
    (hlen : ss.length ≠ t.length) :
    recordToValue host ss t
      = (newRecord t,
          some (csvError "recordToValue: can't decode CSV record to struct (field mismatch)" [])) ∧
    (∀ (header : Row) (post : List Row) (d0 : List Record), header.length = ss.length →
      ReadCSV host (NewReader (header :: ss :: post)) (.ptrToSlice t d0)
        = .returned
            (some (csvError "recordToValue: can't decode CSV record to struct (field mismatch)" []))
            (.ptrToSlice t d0)) ∧
    (∀ (header : Row) (pre post : List Row) (d0 : List Record), header ≠ [] →
      header.length = t.length → (∀ r ∈ pre, (recordToValue host r t).2 = none) →
      ReadCSV host (NewReader (header :: (pre ++ ss :: post))) (.ptrToSlice t d0)
        = .returned (some (.external "wrong number of fields"))
            (.ptrToSlice t (d0 ++ pre.map (fun r => (recordToValue host r t).1)))) ∧
    (∀ (header : Row) (pre post : List Row) (d0 : List Record),
      (∀ r ∈ pre, (recordToValue host r t).2 = none) →
      ∃ (e : GoError) (m : Nat),
        (e = csvError "recordToValue: can't decode CSV record to struct (field mismatch)" [] ∨
          e = .external "wrong number of fields") ∧ m ≤ pre.length ∧
        ReadCSV host (NewReader (header :: (pre ++ ss :: post))) (.ptrToSlice t d0)
          = .returned (some e)
              (.ptrToSlice t (d0 ++ (pre.take m).map (fun r => (recordToValue host r t).1)))) := by
  have h1 : recordToValue host ss t
      = (newRecord t,
          some (csvError "recordToValue: can't decode CSV record to struct (field mismatch)" [])) := by
    simp [recordToValue, hlen]
  refine ⟨h1, ?_, ?_, ?_⟩
  · intro header post d0 hh
    rw [NewReader_cons, ReadCSV_ptrToSlice]
    by_cases hn : header.length > 0
    · simp [readRecords, hn, hh, readLoop, h1]
    · simp [readRecords, hn, readLoop, h1]
  · intro header pre post d0 hne hh hok
    have hpos : header.length > 0 := List.length_pos.mpr hne
    have hpre : ∀ r ∈ pre, r.length = header.length := by
      intro r hr
      rw [decodes_length host t r (hok r hr), hh]
    have hrec : readRecords header.length (pre ++ ss :: post)
        = pre.map .ok ++ .error "wrong number of fields" :: readRecords header.length post := by
      clear hok
      have hl : ss.length ≠ header.length := by
        rw [hh]
        exact hlen
      induction pre with
      | nil => simp [readRecords, hpos, hl]
      | cons r pre ih =>
        have hr : r.length = header.length := hpre r (by simp)
        have := ih (fun r1 h1 => hpre r1 (by simp [h1]))
        simp [readRecords, hpos, hr, this]
    rw [NewReader_cons, hrec, ReadCSV_ptrToSlice,
      (readLoop_fails_after host t pre d0 hok).2 "wrong number of fields" _]
  · intro header pre post d0 hok
    obtain ⟨e, m, he, hm, hrun⟩ :=
      readLoop_readRecords_mismatch host t ss post hlen pre header.length d0 hok
    exact ⟨e, m, he, hm, by rw [NewReader_cons, ReadCSV_ptrToSlice, hrun]⟩

/-- Witness of C5 as amended: a row of one token for a type of two fields, as the first
data row under a header of one token. -/
theorem recordToValue_field_mismatch_witness :
    (["1"] : Row).length ≠ ([⟨"A", .Int, none⟩, ⟨"B", .String, none⟩] : StructType).length ∧
      ReadCSV plainHost (NewReader [["A"], ["1"], ["6"]])
          (.ptrToSlice [⟨"A", .Int, none⟩, ⟨"B", .String, none⟩] [])
        = .returned
            (some (csvError "recordToValue: can't decode CSV record to struct (field mismatch)" []))
            (.ptrToSlice [⟨"A", .Int, none⟩, ⟨"B", .String, none⟩] []) :=
  ⟨by decide,
   (recordToValue_field_mismatch plainHost [⟨"A", .Int, none⟩, ⟨"B", .String, none⟩] ["1"]
      (by decide)).2.1 ["A"] [["6"]] [] (by decide)⟩

/-! ## Round trip through the text -/

theorem dropCR_of_no_cr (l : List Char) (h : ∀ c ∈ l, c ≠ '\r') : dropCR l = l := by
  induction l with
  | nil => rfl
  | cons c rest ih =>
    have hc : c ≠ '\r' := h c (by simp)
    have hrest := ih (fun c1 h1 => h c1 (by simp [h1]))
    unfold dropCR
    split
    · rename_i heq
      cases heq
    · rename_i heq
      simp only [List.cons.injEq] at heq
      exact absurd heq.1 hc
    · rename_i heq
      simp only [List.cons.injEq] at heq
      obtain ⟨h1, h2⟩ := heq
      subst h1 h2
      rw [hrest]

theorem fmtInteger_no_cr (n : Int) : ∀ c ∈ (fmtInteger n).data, c ≠ '\r' := by
  obtain ⟨ds, hdata, _, hall, _⟩ := fmtInteger_canonical n
  intro c hc hcr
  subst hcr
  rw [hdata] at hc
  rcases List.mem_append.mp hc with h | h
  · by_cases hn : n < 0
    · simp [hn] at h
    · simp [hn] at h
  · have := List.all_eq_true.mp hall _ h
    simp [isDecimalDigit] at this

/-- The token `writeRow` makes of a string without a carriage return before a newline,
or of an integer, comes back from the text as it was written. -/
theorem reread_formatField (host : Host) (f : Field) (v : Value)
    (hk : f.Kind = .String ∨ isIntKind f.Kind = true) (hp : hasPrinter f = false)
    (hv : Value.FitsKind f.Kind v) (hcr : noCRLF v = true) :
    String.mk (dropCR (formatField host f v).data) = formatField host f v := by
  cases v with
  | bool b =>
    simp only [Value.FitsKind] at hv
    rw [hv] at hk
    simp [isIntKind] at hk
  | float64 x =>
    simp only [Value.FitsKind] at hv
    rw [hv] at hk
    simp [isIntKind] at hk
  | other k p =>
    simp only [Value.FitsKind] at hv
    rcases hk with hk | hk
    · exact absurd hk hv.2.2.2.2
    · rw [hv.2.1] at hk
      cases hk
  | string s =>
    rw [formatField_string host f s hp]
    simp only [noCRLF, decide_eq_true_eq] at hcr
    rw [hcr]
  | int k n =>
    rw [formatField_int host f k n hp, dropCR_of_no_cr _ (fmtInteger_no_cr n)]

theorem formatField_empty (host : Host) (f : Field) (v : Value)
    (hk : f.Kind = .String ∨ isIntKind f.Kind = true) (hp : hasPrinter f = false)
    (hv : Value.FitsKind f.Kind v) (he : formatField host f v = "") : v = .string "" := by
  cases v with
  | bool b =>
    simp only [Value.FitsKind] at hv
    rw [hv] at hk
    simp [isIntKind] at hk
  | float64 x =>
    simp only [Value.FitsKind] at hv
    rw [hv] at hk
    simp [isIntKind] at hk
  | other k p =>
    simp only [Value.FitsKind] at hv
    rcases hk with hk | hk
    · exact absurd hk hv.2.2.2.2
    · rw [hv.2.1] at hk
      cases hk
  | string s =>
    rw [formatField_string host f s hp] at he
    rw [he]
  | int k n =>
    rw [formatField_int host f k n hp] at he
    exact absurd he (fmtInteger_ne_empty n)

/-- A row that `writeRow` builds from strings and integers is not written as an empty
line, unless it is the one empty string of a struct with one field, and its tokens come
back from the text as they were written, when no string holds a carriage return before a
newline. -/
theorem written_row (host : Host) (t : StructType) (r : Record) (ht : t ≠ [])
    (hk : ∀ f ∈ t, (f.Kind = .String ∨ isIntKind f.Kind = true) ∧ hasPrinter f = false)
    (hr : Conforms t r) (hcr : ∀ v ∈ r, noCRLF v = true) (hb : r ≠ [.string ""]) :
    isBlankRow (List.zipWith (formatField host) t r) = false ∧
    (List.zipWith (formatField host) t r).map (fun s => String.mk (dropCR s.data))
      = List.zipWith (formatField host) t r := by
  unfold Conforms at hr
  constructor
  · cases hr with
    | nil => exact absurd rfl ht
    | @cons f v t1 r1 hv hrest =>
      have hf := hk f (by simp)
      simp only [isBlankRow, List.zipWith_cons_cons, reduceCtorEq, decide_False,
        Bool.false_or, decide_eq_false_iff_not, List.cons.injEq, not_and]
      intro he hnil
      have hv1 := formatField_empty host f v hf.1 hf.2 hv he
      cases hrest with
      | nil =>
        subst hv1
        exact hb rfl
      | cons _ _ => simp at hnil
  · clear ht hb
    induction hr with
    | nil => simp
    | @cons f v t1 r1 hv _ ih =>
      have hf := hk f (by simp)
      have h1 := reread_formatField host f v hf.1 hf.2 hv (hcr v (by simp))
      have h2 := ih (fun f1 hf1 => hk f1 (by simp [hf1])) (fun v1 hv1 => hcr v1 (by simp [hv1]))
      simp only [List.zipWith_cons_cons, List.map_cons, h1, h2]

theorem writtenRecords_cons (header : Row) (rows : List Row)
    (hh : isBlankRow header = false)
    (hrows : ∀ r ∈ rows, isBlankRow r = false ∧
      r.map (fun s => String.mk (dropCR s.data)) = r) :
    writtenRecords (header :: rows)
      = header.map (fun s => String.mk (dropCR s.data)) :: rows := by
  have hfilter : rows.filter (fun r => !isBlankRow r) = rows := by
    apply List.filter_eq_self.mpr
    intro r hr
    simp [(hrows r hr).1]
  simp only [writtenRecords, List.filter_cons, hh, Bool.not_false, if_true, List.map_cons,
    hfilter, List.cons.injEq, true_and]
  calc List.map (fun r => List.map (fun s => String.mk (dropCR s.data)) r) rows
      = List.map id rows := by
        apply List.map_congr_left
        intro r hr
        exact (hrows r hr).2
    _ = rows := List.map_id rows

/-- C1, the counterexample: two collections that `WriteCSV` writes and `ReadCSV` does not
give back. The one record of one empty string is written as an empty line, which the
reader skips: `ReadCSV` returns `nil` and an empty slice. The one record whose field is of
the defined type `Level` (kind `int`, with a `String` method) is written as `level-2`,
which `ReadCSV` rejects with the type error of `ParseInt`. -/
theorem WriteCSV_ReadCSV_loses :
    (WriteCSV plainHost ⟨[], [], false⟩ (.slice [⟨"S", .String, none⟩] [[.string ""]])
        = .returned none ⟨[["S"], [""]], [], true⟩ ∧
      ReadCSV plainHost (NewReader (writtenRecords [["S"], [""]]))
          (.ptrToSlice [⟨"S", .String, none⟩] [])
        = .returned none (.ptrToSlice [⟨"S", .String, none⟩] [])) ∧
    (WriteCSV plainHost ⟨[], [], false⟩
          (.slice [⟨"L", .Int, some ⟨"Level", true⟩⟩] [[.int .Int 2]])
        = .returned none ⟨[["L"], ["level-2"]], [], true⟩ ∧
      ReadCSV plainHost (NewReader (writtenRecords [["L"], ["level-2"]]))
          (.ptrToSlice [⟨"L", .Int, some ⟨"Level", true⟩⟩] [])
        = .returned (some (typeError .Int "L" "int" ⟨"ParseInt", "level-2", .ErrSyntax⟩))
            (.ptrToSlice [⟨"L", .Int, some ⟨"Level", true⟩⟩] [])) := by
  decide

/-- C1 as amended: for a struct type with at least one field, whose fields have names
that are not empty, are all of string or signed-integer kind and of types without a
`Format`, `Error` or `String` method, and a non-empty slice `c` of values of that type in
which no string holds a carriage return before a newline and, when the type has one
field, no string is empty: what `WriteCSV` hands a fresh writer that reports no error
(the header row, then one row per element), read back from the text by the reader that
`ReadCSV` makes, with a destination pointing to an empty slice, makes `ReadCSV` return
`nil` and leaves the slice equal to `c`. -/
theorem WriteCSV_ReadCSV_roundtrip (host : Host) (t : StructType) (c : List Record)
    (faults : List (Option String)) (hc : c ≠ []) (ht : t ≠ [])
    (hnames : ∀ f ∈ t, f.Name ≠ "")
    (hk : ∀ f ∈ t, (f.Kind = .String ∨ isIntKind f.Kind = true) ∧ hasPrinter f = false)
    (hconf : ∀ r ∈ c, Conforms t r)
    (hcr : ∀ r ∈ c, ∀ v ∈ r, noCRLF v = true)
    (hb : ∀ r ∈ c, r ≠ [.string ""])
    (hw : ∀ x ∈ faults, x = none) :
    ∃ cw1, WriteCSV host ⟨[], faults, false⟩ (.slice t c) = .returned none cw1 ∧
      cw1.rows = t.map (fun f => f.Name) :: c.map (fun e => buildRow host ⟨t, e⟩) ∧
      ReadCSV host (NewReader (writtenRecords cw1.rows)) (.ptrToSlice t [])
        = .returned none (.ptrToSlice t c) := by
  have hlen : ¬ c.length = 0 := fun h => hc (List.length_eq_zero.mp h)
  have hw1 : ∀ x ∈ List.drop 1 faults, x = none :=
    fun x hx => hw x (List.mem_of_mem_drop hx)
  have hwrite : WriteCSV host ⟨[], faults, false⟩ (.slice t c)
      = .returned none
          ⟨t.map (fun f => f.Name) :: c.map (fun e => buildRow host ⟨t, e⟩),
           faults.drop (c.length + 1), true⟩ := by
    simp only [WriteCSV, reflectSlice, goIsNil, goKind, ne_eq, not_true_eq_false, if_false,
      hlen, writeHeader, headerRow_eq, Write_accepts ⟨[], faults, false⟩ _ hw]
    rw [writeLoop_accepts host t c ⟨[] ++ [t.map (fun f => f.Name)], faults.drop 1, false⟩ hw1]
    simp [Writer.Flush, Nat.add_comm]
  refine ⟨_, hwrite, rfl, ?_⟩
  have hk3 : ∀ f ∈ t, (f.Kind = .String ∨ isIntKind f.Kind = true ∨ f.Kind = .Bool) ∧
      hasPrinter f = false := by
    intro f hf
    obtain ⟨h1, h2⟩ := hk f hf
    exact ⟨by tauto, h2⟩
  have hheader : isBlankRow (t.map (fun f => f.Name)) = false := by
    cases t with
    | nil => exact absurd rfl ht
    | cons f t1 =>
      have hn := hnames f (by simp)
      simp only [isBlankRow, List.map_cons, reduceCtorEq, decide_False, Bool.false_or,
        decide_eq_false_iff_not, List.cons.injEq, not_and]
      intro he
      exact absurd he hn
  have hrows : ∀ row ∈ c.map (fun e => buildRow host ⟨t, e⟩), isBlankRow row = false ∧
      row.map (fun s => String.mk (dropCR s.data)) = row := by
    intro row hrow
    obtain ⟨e, he, rfl⟩ := List.mem_map.mp hrow
    have hl : e.length = t.length := (List.Forall₂.length_eq (hconf e he)).symm
    rw [buildRow_eq host t e hl]
    exact written_row host t e ht hk (hconf e he) (hcr e he) (hb e he)
  have hok : ∀ row ∈ c.map (fun e => buildRow host ⟨t, e⟩),
      (recordToValue host row t).2 = none := by
    intro row hrow
    obtain ⟨e, he, rfl⟩ := List.mem_map.mp hrow
    rw [recordToValue_buildRow host t e hk3 (hconf e he)]
  have hsame : ∀ row ∈ c.map (fun e => buildRow host ⟨t, e⟩),
      row.length = (List.map (fun s => String.mk (dropCR s.data))
        (t.map (fun f => f.Name))).length := by
    intro row hrow
    rw [decodes_length host t row (hok row hrow)]
    simp
  have hread := readLoop_prefix host t (c.map (fun e => buildRow host ⟨t, e⟩)) [] [] hok
  simp only [List.append_nil, List.nil_append] at hread
  simp only
  rw [writtenRecords_cons _ _ hheader hrows, NewReader_cons,
    readRecords_same_length _ _ hsame, ReadCSV_ptrToSlice, hread]
  simp only [readLoop, List.map_map]
  congr 2
  calc List.map ((fun r => (recordToValue host r t).1) ∘ fun e => buildRow host ⟨t, e⟩) c
      = List.map id c := by
        apply List.map_congr_left
        intro e he
        simp [recordToValue_buildRow host t e hk3 (hconf e he)]
    _ = c := List.map_id c

/-- Witness of C1 as amended: two records with an empty string, the integers 0 and -23
and the bounds of `int8`. -/
theorem WriteCSV_ReadCSV_roundtrip_witness :
    ∃ cw1, WriteCSV plainHost ⟨[], [], false⟩
        (.slice [⟨"Name", .String, none⟩, ⟨"Age", .Int, none⟩, ⟨"D", .Int8, none⟩]
          [[.string "", .int .Int 0, .int .Int8 (-128)],
           [.string "Matt", .int .Int (-23), .int .Int8 127]]) = .returned none cw1 ∧
      cw1.rows = [["Name", "Age", "D"], ["", "0", "-128"], ["Matt", "-23", "127"]] ∧
      ReadCSV plainHost (NewReader (writtenRecords cw1.rows))
          (.ptrToSlice [⟨"Name", .String, none⟩, ⟨"Age", .Int, none⟩, ⟨"D", .Int8, none⟩] [])
        = .returned none
            (.ptrToSlice [⟨"Name", .String, none⟩, ⟨"Age", .Int, none⟩, ⟨"D", .Int8, none⟩]
              [[.string "", .int .Int 0, .int .Int8 (-128)],
               [.string "Matt", .int .Int (-23), .int .Int8 127]]) :=
  WriteCSV_ReadCSV_roundtrip plainHost
    [⟨"Name", .String, none⟩, ⟨"Age", .Int, none⟩, ⟨"D", .Int8, none⟩]
    [[.string "", .int .Int 0, .int .Int8 (-128)],
     [.string "Matt", .int .Int (-23), .int .Int8 127]] [] (by decide) (by decide) (by decide)
    (by decide)
    (by
      intro r hr
      simp only [List.mem_cons, List.mem_singleton, List.not_mem_nil, or_false] at hr
      rcases hr with rfl | rfl <;>
        simp [Conforms, Value.FitsKind, isIntKind, intBits])
    (by decide) (by decide) (by simp)

end Objcsv
